import Mathlib

/-!
# Verification of the namefix core engine

Shallow embedding of the namefix processing engine (TypeScript sources) in
Lean 4, together with theorems settling the frozen claims about the
specification.

Conventions:
* JS strings are modelled as Lean `String` / `List Char`; all the string
  primitives the sources use (`trim`, `replace(/\s+/g,'_')`, `toLowerCase`,
  `String(n)`, `padStart`) are embedded explicitly below.  Case conversion is
  ASCII (the file names manipulated by the program are ASCII).
* `Date` values are modelled by their getter projections
  (`getFullYear`, `getMonth()+1`, `getDate`, ...) as a structure of `Nat`s.
* Node `path` functions (`basename`, `extname`, `resolve`, `join`) are
  embedded for POSIX paths; the degenerate inputs they special-case
  (paths that are only dots or only slashes) do not occur in any statement
  below.
* Fallible/stateful code is modelled by explicit state passing plus oracles
  for the outcomes of external effects (disk rename success, converter
  results, trash results), and by traces of emitted events and disk
  operations where ordering matters.

The TypeScript field called `prefix` (on profiles and template contexts) is
rendered `pfx` throughout.
-/

namespace Namefix

/-! ## JS string primitives -/

/-- Whitespace test used for JS `trim` / `\s` (ASCII fragment). -/
def isWs (c : Char) : Bool := c.isWhitespace

/-- `String.prototype.trim` on a char list. -/
def trimChars (l : List Char) : List Char :=
  ((l.dropWhile isWs).reverse.dropWhile isWs).reverse

/-- JS `s.trim()`. -/
def jsTrim (s : String) : String := ⟨trimChars s.data⟩

theorem dropWhile_length_le (p : Char → Bool) (l : List Char) :
    (l.dropWhile p).length ≤ l.length := by
  induction l with
  | nil => simp [List.dropWhile]
  | cons c rest ih =>
    rw [List.dropWhile]
    by_cases h : p c
    · simp only [h]
      exact Nat.le_succ_of_le ih
    · simp [h]

/-- `replace(/\s+/g, '_')` scanner; the flag records whether the scanner is
inside a whitespace run whose `'_'` has already been emitted. -/
def squashWsGo : Bool → List Char → List Char
  | _, [] => []
  | inRun, c :: rest =>
    if isWs c then
      if inRun then squashWsGo true rest else '_' :: squashWsGo true rest
    else c :: squashWsGo false rest

/-- `replace(/\s+/g, '_')`: each maximal whitespace run becomes one `'_'`. -/
def squashWs (l : List Char) : List Char := squashWsGo false l

/-- `prefix.trim().replace(/\s+/g, '_')` (NameTemplate.sanitizePrefix, and the
same inline expression in RenameService.needsRenameForProfile). -/
def sanitizePfx (s : String) : String := ⟨squashWs (trimChars s.data)⟩

/-- JS `s.toLowerCase()` (ASCII). -/
def lowerChars (l : List Char) : List Char := l.map Char.toLower

/-- JS `s.toLowerCase()` (ASCII). -/
def jsToLower (s : String) : String := ⟨lowerChars s.data⟩

/-- JS `s.toUpperCase()` (ASCII). -/
def jsToUpper (s : String) : String := ⟨s.data.map Char.toUpper⟩

/-- Does `l` start with `pat` (exact characters)? -/
def startsWithL : List Char → List Char → Bool
  | [], _ => true
  | _ :: _, [] => false
  | p :: ps, c :: cs => p == c && startsWithL ps cs

/-- Substring test (`String.prototype.includes`). -/
def containsSub (pat : List Char) : List Char → Bool
  | [] => startsWithL pat []
  | c :: rest => startsWithL pat (c :: rest) || containsSub pat rest

/-- Strip `pat` from the front of `l` case-insensitively (ASCII), returning
the remainder; models matching an escaped literal under the `i` regex flag. -/
def stripCI : List Char → List Char → Option (List Char)
  | [], l => some l
  | _ :: _, [] => none
  | p :: ps, c :: cs => if p.toLower == c.toLower then stripCI ps cs else none

/-! ## Decimal rendering: JS `String(n)` and `padStart` -/

/-- Fuel-indexed decimal rendering; `fuel > n` always suffices since the
argument shrinks by a factor of ten each step. -/
def decDigitsGo : Nat → Nat → List Char
  | 0, _ => []
  | fuel + 1, n =>
    if n < 10 then [Nat.digitChar n]
    else decDigitsGo fuel (n / 10) ++ [Nat.digitChar (n % 10)]

/-- JS `String(n)` for a natural number: decimal digits, most significant
first. -/
def decDigits (n : Nat) : List Char := decDigitsGo (n + 1) n

/-- `String(n).padStart(k, '0')`. -/
def padZero (k : Nat) (l : List Char) : List Char :=
  List.replicate (k - l.length) '0' ++ l

/-- NameTemplate.pad2. -/
def pad2 (n : Nat) : List Char := padZero 2 (decDigits n)

/-- NameTemplate.pad. -/
def padN (n digits : Nat) : List Char := padZero digits (decDigits n)

theorem digitChar_isDigit : ∀ m, m < 10 → (Nat.digitChar m).isDigit = true := by decide

theorem decDigitsGo_len {k : Nat} : ∀ {fuel n : Nat}, n < fuel → 10 ^ k ≤ n →
    n < 10 ^ (k + 1) → (decDigitsGo fuel n).length = k + 1 := by
  induction k with
  | zero =>
    intro fuel n hf h1 h2
    have h10 : n < 10 := by simpa using h2
    cases fuel with
    | zero => omega
    | succ fuel => rw [decDigitsGo, if_pos h10]; rfl
  | succ k ih =>
    intro fuel n hf h1 h2
    have h10 : ¬ n < 10 := by
      have : (10 : Nat) ≤ 10 ^ (k + 1) := by
        calc (10 : Nat) = 10 ^ 1 := (pow_one 10).symm
        _ ≤ 10 ^ (k + 1) := Nat.pow_le_pow_right (by norm_num) (by omega)
      omega
    cases fuel with
    | zero => omega
    | succ fuel =>
      rw [decDigitsGo, if_neg h10]
      have hdf : n / 10 < fuel := by
        have hlt : n / 10 < n := Nat.div_lt_self (by omega) (by norm_num)
        omega
      have hlo : 10 ^ k ≤ n / 10 := by
        rw [Nat.le_div_iff_mul_le (by norm_num)]
        calc 10 ^ k * 10 = 10 ^ (k + 1) := by ring
        _ ≤ n := h1
      have hhi : n / 10 < 10 ^ (k + 1) := by
        rw [Nat.div_lt_iff_lt_mul (by norm_num)]
        calc n < 10 ^ (k + 2) := h2
        _ = 10 ^ (k + 1) * 10 := by ring
      simp [ih hdf hlo hhi]

theorem decDigits_len {k n : Nat} (h1 : 10 ^ k ≤ n) (h2 : n < 10 ^ (k + 1)) :
    (decDigits n).length = k + 1 :=
  decDigitsGo_len (Nat.lt_succ_self n) h1 h2

theorem decDigitsGo_digits : ∀ fuel n : Nat, (decDigitsGo fuel n).all Char.isDigit = true := by
  intro fuel
  induction fuel with
  | zero => intro n; rfl
  | succ fuel ih =>
    intro n
    rw [decDigitsGo]
    by_cases h : n < 10
    · rw [if_pos h]
      simp [digitChar_isDigit n h]
    · rw [if_neg h]
      simp only [List.all_append, List.all_cons, List.all_nil, Bool.and_true,
        Bool.and_eq_true]
      exact ⟨ih (n / 10), digitChar_isDigit _ (Nat.mod_lt _ (by norm_num))⟩

theorem decDigits_digits (n : Nat) : (decDigits n).all Char.isDigit = true :=
  decDigitsGo_digits (n + 1) n

theorem decDigits_len1 {n : Nat} (h : n < 10) : (decDigits n).length = 1 := by
  rw [decDigits, decDigitsGo, if_pos h]
  rfl

theorem pad2_len {n : Nat} (h : n < 100) : (pad2 n).length = 2 := by
  unfold pad2 padZero
  by_cases h10 : n < 10
  · have : (decDigits n).length = 1 := decDigits_len1 h10
    simp [this]
  · have : (decDigits n).length = 2 :=
      decDigits_len (k := 1) (by simpa using Nat.not_lt.mp h10) (by simpa using h)
    simp [this]

theorem pad2_digits (n : Nat) : (pad2 n).all Char.isDigit = true := by
  unfold pad2 padZero
  simp only [List.all_append, Bool.and_eq_true]
  refine ⟨?_, decDigits_digits n⟩
  simp only [List.all_eq_true]
  intro c hc
  have := List.eq_of_mem_replicate hc
  subst this
  decide

/-! ## Node `path` (POSIX) -/

/-- The portion of `l` after the last `'/'` (all of `l` when it has no
slash).  Used for `path.basename`; the inputs in this development never have
trailing slashes. -/
def afterLastSlash (l : List Char) : List Char :=
  l.foldl (fun acc c => if c = '/' then [] else acc ++ [c]) []

/-- Node `path.basename` (POSIX, no trailing-slash inputs). -/
def jsBasename (s : String) : String := ⟨afterLastSlash s.data⟩

/-- The suffix of `l` starting at its last `'.'` (empty when `l` has none). -/
def extTail : List Char → List Char
  | [] => []
  | c :: rest =>
    let t := extTail rest
    if t.isEmpty then (if c = '.' then c :: rest else []) else t

/-- Node `path.extname` (POSIX): extension of the basename, empty for
dotfiles (a leading dot never starts the extension).  The all-dots basenames
`"."`/`".."` that Node special-cases do not occur below. -/
def jsExtname (s : String) : String :=
  match afterLastSlash s.data with
  | [] => ""
  | _ :: rest => ⟨extTail rest⟩

/-- Split on `'/'`; always returns a nonempty list of slash-free segments. -/
def splitSegs : List Char → List (List Char)
  | [] => [[]]
  | c :: rest =>
    if c = '/' then [] :: splitSegs rest
    else
      match splitSegs rest with
      | s :: ss => (c :: s) :: ss
      | [] => [[c]]

/-- Inverse of `splitSegs`: interleave `'/'` between segments. -/
def joinSegs : List (List Char) → List Char
  | [] => []
  | [s] => s
  | s :: rest => s ++ '/' :: joinSegs rest

/-- A path segment that survives normalization. -/
def cleanSeg (seg : List Char) : Bool :=
  !seg.isEmpty && seg ≠ ['.'] && seg ≠ ['.', '.']

/-- Normalization stack: drop empty/`.` segments, `..` pops. -/
def normStack (segs : List (List Char)) : List (List Char) :=
  segs.foldl
    (fun st seg =>
      if seg.isEmpty || seg = ['.'] then st
      else if seg = ['.', '.'] then st.dropLast
      else st ++ [seg]) []

/-- `s.startsWith "/"` -/
def isAbsPath (s : String) : Bool := startsWithL ['/'] s.data

/-- Node `path.resolve(p)` with the process working directory `cwd`
(an absolute path): absolute inputs are normalized, relative ones are
resolved against `cwd`. -/
def resolvePath (cwd s : String) : String :=
  let full : List Char := if isAbsPath s then s.data else cwd.data ++ '/' :: s.data
  ⟨'/' :: joinSegs (normStack (splitSegs full))⟩

/-- Node `path.join(dir, name)` for a normalized `dir` and slash-free
`name`. -/
def pathJoin (dir name : String) : String := dir ++ "/" ++ name

/-! ## NameTemplate -/

/-- A JS `Date` value through the getters the sources use; `month` and the
other fields carry the already-adjusted human-readable values
(`getMonth() + 1`, `getDate()`, ...). -/
structure DateTime where
  year : Nat
  month : Nat
  day : Nat
  hour : Nat
  minute : Nat
  second : Nat
deriving DecidableEq, Repr

/-- NameTemplate.TemplateContext (the source field `prefix` is `pfx`). -/
structure TemplateContext where
  originalPath : String
  birthtime : DateTime
  ext : String
  pfx : String
  counter : Option Nat
deriving DecidableEq, Repr

/-- `s.startsWith('.')` -/
def startsWithDot (s : String) : Bool := startsWithL ['.'] s.data

/-- NameTemplate.formatTimestamp. -/
def formatTimestamp (d : DateTime) : String :=
  ⟨decDigits d.year⟩ ++ "-" ++ ⟨pad2 d.month⟩ ++ "-" ++ ⟨pad2 d.day⟩ ++ "_" ++
    ⟨pad2 d.hour⟩ ++ "-" ++ ⟨pad2 d.minute⟩ ++ "-" ++ ⟨pad2 d.second⟩

/-- NameTemplate.buildName (legacy fixed format). -/
def buildName (pfx : String) (d : DateTime) (ext : String) : String :=
  let p := sanitizePfx (if pfx = "" then "Screenshot" else pfx)
  let e := if startsWithDot ext then ext else "." ++ ext
  p ++ "_" ++ formatTimestamp d ++ jsToLower e

/-- NameTemplate.getExt: `path.extname(p) || ''`. -/
def getExt (p : String) : String := jsExtname p

/-- NameTemplate.getBasename: basename without its extension. -/
def getBasenameNT (p : String) : String :=
  let e := jsExtname p
  let b := jsBasename p
  if e ≠ "" then ⟨b.data.take (b.data.length - e.data.length)⟩ else b

/-- JS `\w` (ASCII). -/
def isWordChar (c : Char) : Bool := c.isAlphanum || c = '_'

/-- Take the maximal run of word characters: `(run, remainder)`. -/
def readWord : List Char → List Char × List Char
  | [] => ([], [])
  | c :: rest =>
    if isWordChar c then
      let (w, r) := readWord rest
      (c :: w, r)
    else ([], c :: rest)

theorem readWord_snd_len (l : List Char) : (readWord l).2.length ≤ l.length := by
  induction l with
  | nil => simp [readWord]
  | cons c rest ih =>
    rw [readWord]
    by_cases h : isWordChar c
    · simp only [h, if_pos]
      exact Nat.le_succ_of_le ih
    · simp [h]

/-- Take the maximal run of digits: `(run, remainder)`. -/
def readDigits : List Char → List Char × List Char
  | [] => ([], [])
  | c :: rest =>
    if c.isDigit then
      let (w, r) := readDigits rest
      (c :: w, r)
    else ([], c :: rest)

theorem readDigits_snd_len (l : List Char) : (readDigits l).2.length ≤ l.length := by
  induction l with
  | nil => simp [readDigits]
  | cons c rest ih =>
    rw [readDigits]
    by_cases h : c.isDigit
    · simp only [h, if_pos]
      exact Nat.le_succ_of_le ih
    · simp [h]

/-- `parseInt` of a nonempty digit run. -/
def natOfDigits (ds : List Char) : Nat :=
  ds.foldl (fun a c => a * 10 + (c.toNat - '0'.toNat)) 0

/-- Variable table lookup (`vars[varName]`). -/
def lookupVar (vars : List (String × String)) (k : String) : Option String :=
  (vars.find? (fun p => p.1 == k)).map (·.2)

/-- One match attempt of `/<counter:(\d+)>/` at a position just past `'<'`:
returns the requested pad width and the remainder past `'>'`. -/
def matchCounterPad (l : List Char) : Option (Nat × List Char) :=
  if startsWithL ("counter:".data) l then
    if (readDigits (l.drop 8)).1.isEmpty then none
    else
      match (readDigits (l.drop 8)).2 with
      | '>' :: tail => some (natOfDigits (readDigits (l.drop 8)).1, tail)
      | _ => none
  else none

theorem matchCounterPad_len {l : List Char} {n : Nat} {t : List Char}
    (h : matchCounterPad l = some (n, t)) : t.length < l.length := by
  unfold matchCounterPad at h
  split at h
  · split at h
    · exact absurd h (by simp)
    · split at h
      · next tail heq =>
        simp only [Option.some.injEq, Prod.mk.injEq] at h
        obtain ⟨-, rfl⟩ := h
        have h1 := readDigits_snd_len (l.drop 8)
        rw [heq] at h1
        simp only [List.length_cons, List.length_drop] at h1
        omega
      · exact absurd h (by simp)
  · exact absurd h (by simp)

/-- Pass 1 of `applyTemplate`: `template.replace(/<counter:(\d+)>/g, ...)`;
fuel-indexed scanner (the remaining text shrinks at every step, so fuel
equal to the text length suffices and the fuel-exhausted case is
unreachable). -/
def replaceCounterFuel (counter : Nat) : Nat → List Char → List Char
  | 0, l => l
  | _ + 1, [] => []
  | fuel + 1, c :: rest =>
    if c = '<' then
      match matchCounterPad rest with
      | some (digits, tail) => padN counter digits ++ replaceCounterFuel counter fuel tail
      | none => c :: replaceCounterFuel counter fuel rest
    else c :: replaceCounterFuel counter fuel rest

/-- Pass 1 of `applyTemplate`. -/
def replaceCounterGo (counter : Nat) (l : List Char) : List Char :=
  replaceCounterFuel counter l.length l

/-- Transform modifiers of `<upper:var>` / `<lower:var>` / `<slug:var>`. -/
inductive TMod
  | upper
  | lower
  | slug
deriving DecidableEq, Repr

/-- `[a-z0-9]` (the characters `toSlug` keeps). -/
def isSlugKeep (c : Char) : Bool := ('a' ≤ c && c ≤ 'z') || c.isDigit

/-- `replace(/[^a-z0-9]+/g, '-')` scanner; the flag records whether the
scanner is inside a run whose `'-'` has already been emitted. -/
def squashNonKeepGo : Bool → List Char → List Char
  | _, [] => []
  | inRun, c :: rest =>
    if isSlugKeep c then c :: squashNonKeepGo false rest
    else if inRun then squashNonKeepGo true rest
    else '-' :: squashNonKeepGo true rest

/-- `replace(/[^a-z0-9]+/g, '-')`: each maximal run of non-keep characters
becomes one `'-'`. -/
def squashNonKeep (l : List Char) : List Char := squashNonKeepGo false l

/-- `replace(/^-|-$/g, '')`: one leading and one trailing dash removed. -/
def stripEndDashes (l : List Char) : List Char :=
  let l1 := match l with | '-' :: rest => rest | other => other
  match l1.getLast? with
  | some '-' => l1.dropLast
  | _ => l1

/-- NameTemplate.toSlug. -/
def toSlug (s : String) : String :=
  ⟨stripEndDashes (squashNonKeep (lowerChars (trimChars s.data)))⟩

/-- The switch body of the transform pass. -/
def applyTMod : TMod → String → String
  | .upper, v => jsToUpper v
  | .lower, v => jsToLower v
  | .slug, v => toSlug v

/-- One match attempt of `/<(upper|lower|slug):(\w+)>/` just past `'<'`,
after the modifier literal and its colon have been consumed. -/
def matchTransformTail (m : TMod) (l : List Char) : Option (TMod × String × List Char) :=
  if (readWord l).1.isEmpty then none
  else
    match (readWord l).2 with
    | '>' :: tail => some (m, ⟨(readWord l).1⟩, tail)
    | _ => none

/-- One match attempt of `/<(upper|lower|slug):(\w+)>/` just past `'<'`. -/
def matchTransform (l : List Char) : Option (TMod × String × List Char) :=
  if startsWithL ("upper:".data) l then matchTransformTail TMod.upper (l.drop 6)
  else if startsWithL ("lower:".data) l then matchTransformTail TMod.lower (l.drop 6)
  else if startsWithL ("slug:".data) l then matchTransformTail TMod.slug (l.drop 5)
  else none

theorem matchTransformTail_len {m m' : TMod} {l : List Char} {w : String} {t : List Char}
    (h : matchTransformTail m l = some (m', w, t)) : t.length < l.length := by
  unfold matchTransformTail at h
  split at h
  · exact absurd h (by simp)
  · split at h
    · next tail heq =>
      simp only [Option.some.injEq, Prod.mk.injEq] at h
      obtain ⟨-, -, rfl⟩ := h
      have h1 := readWord_snd_len l
      rw [heq] at h1
      simp only [List.length_cons] at h1
      omega
    · exact absurd h (by simp)

theorem matchTransform_len {l : List Char} {m : TMod} {w : String} {t : List Char}
    (h : matchTransform l = some (m, w, t)) : t.length < l.length := by
  unfold matchTransform at h
  split at h
  · have := matchTransformTail_len h
    simp only [List.length_drop] at this
    omega
  · split at h
    · have := matchTransformTail_len h
      simp only [List.length_drop] at this
      omega
    · split at h
      · have := matchTransformTail_len h
        simp only [List.length_drop] at this
        omega
      · exact absurd h (by simp)

/-- Pass 2 of `applyTemplate`: the transform-modifier replacement
(fuel-indexed scanner as in pass 1). -/
def replaceTransformsFuel (vars : List (String × String)) : Nat → List Char → List Char
  | 0, l => l
  | _ + 1, [] => []
  | fuel + 1, c :: rest =>
    if c = '<' then
      match matchTransform rest with
      | some (m, w, tail) =>
        (applyTMod m ((lookupVar vars w).getD "")).data ++ replaceTransformsFuel vars fuel tail
      | none => c :: replaceTransformsFuel vars fuel rest
    else c :: replaceTransformsFuel vars fuel rest

/-- Pass 2 of `applyTemplate`. -/
def replaceTransformsGo (vars : List (String × String)) (l : List Char) : List Char :=
  replaceTransformsFuel vars l.length l

/-- One match attempt of `/<(\w+)>/` just past `'<'`. -/
def matchSimpleVar (l : List Char) : Option (List Char × List Char) :=
  if (readWord l).1.isEmpty then none
  else
    match (readWord l).2 with
    | '>' :: tail => some ((readWord l).1, tail)
    | _ => none

theorem matchSimpleVar_len {l w t : List Char}
    (h : matchSimpleVar l = some (w, t)) : t.length < l.length := by
  unfold matchSimpleVar at h
  split at h
  · exact absurd h (by simp)
  · split at h
    · next tail heq =>
      simp only [Option.some.injEq, Prod.mk.injEq] at h
      obtain ⟨-, rfl⟩ := h
      have h1 := readWord_snd_len l
      rw [heq] at h1
      simp only [List.length_cons] at h1
      omega
    · exact absurd h (by simp)

/-- Pass 3 of `applyTemplate`: simple variables; unknown tokens pass through
literally (fuel-indexed scanner as in pass 1). -/
def replaceVarsFuel (vars : List (String × String)) : Nat → List Char → List Char
  | 0, l => l
  | _ + 1, [] => []
  | fuel + 1, c :: rest =>
    if c = '<' then
      match matchSimpleVar rest with
      | some (w, tail) =>
        ((lookupVar vars ⟨w⟩).getD ⟨'<' :: (w ++ ['>'])⟩).data ++ replaceVarsFuel vars fuel tail
      | none => c :: replaceVarsFuel vars fuel rest
    else c :: replaceVarsFuel vars fuel rest

/-- Pass 3 of `applyTemplate`. -/
def replaceVarsGo (vars : List (String × String)) (l : List Char) : List Char :=
  replaceVarsFuel vars l.length l

/-- NameTemplate.applyTemplate: build the variable table, then the three
replacement passes in source order. -/
def applyTemplate (template : String) (ctx : TemplateContext) : String :=
  let d := ctx.birthtime
  let year : String := ⟨decDigits d.year⟩
  let month : String := ⟨pad2 d.month⟩
  let day : String := ⟨pad2 d.day⟩
  let hour : String := ⟨pad2 d.hour⟩
  let minute : String := ⟨pad2 d.minute⟩
  let second : String := ⟨pad2 d.second⟩
  let date := year ++ "-" ++ month ++ "-" ++ day
  let time := hour ++ "-" ++ minute ++ "-" ++ second
  let datetime := date ++ "_" ++ time
  let original := getBasenameNT ctx.originalPath
  let ext := jsToLower (if startsWithDot ctx.ext then ctx.ext else "." ++ ctx.ext)
  let pfx := sanitizePfx (if ctx.pfx = "" then "File" else ctx.pfx)
  let counter := ctx.counter.getD 1
  let vars : List (String × String) :=
    [("date", date), ("time", time), ("datetime", datetime), ("original", original),
     ("ext", ext), ("prefix", pfx), ("year", year), ("month", month), ("day", day),
     ("hour", hour), ("minute", minute), ("second", second), ("counter", ⟨padN counter 3⟩)]
  ⟨replaceVarsGo vars (replaceTransformsGo vars (replaceCounterGo counter template.data))⟩

/-- NameTemplate.buildNameFromTemplate: append the lowercased extension
unless the template itself mentions `<ext>`. -/
def buildNameFromTemplate (template : String) (ctx : TemplateContext) : String :=
  let name := applyTemplate template ctx
  if containsSub ("<ext>".data) template.data then name
  else name ++ jsToLower (if startsWithDot ctx.ext then ctx.ext else "." ++ ctx.ext)

/-- NameTemplate.DEFAULT_TEMPLATE. -/
def DEFAULT_TEMPLATE : String := "<prefix>_<datetime>"

/-! ## Profiles -/

/-- Profile actions (`rename`, `convert`, `rename+convert`). -/
inductive PAction
  | rename
  | convert
  | renameConvert
deriving DecidableEq, Repr

/-- IProfile (the source field `prefix` is `pfx`; `action` is optional and
defaults to rename at dispatch). -/
structure Profile where
  id : String
  name : String
  enabled : Bool
  pattern : String
  isRegex : Bool
  template : String
  pfx : String
  priority : Int
  action : Option PAction
deriving DecidableEq, Repr

/-- NameTemplate.DEFAULT_PROFILES as present in the source file
(`screenshots` and `screen-recordings`; no `action` fields). -/
def DEFAULT_PROFILES : List Profile :=
  [{ id := "screenshots", name := "Screenshots", enabled := true,
     pattern := "Screenshot*", isRegex := false, template := "<prefix>_<datetime>",
     pfx := "Screenshot", priority := 1, action := none },
   { id := "screen-recordings", name := "Screen Recordings", enabled := true,
     pattern := "Screen Recording*", isRegex := false, template := "<prefix>_<datetime>",
     pfx := "Recording", priority := 2, action := none }]

/-! ## RenameService -/

/-- Node `path.dirname` (POSIX, no trailing-slash inputs). -/
def jsDirname (s : String) : String :=
  let r := s.data.reverse.dropWhile (· ≠ '/')
  match r with
  | [] => "."
  | _ :: up =>
    match up with
    | [] => "/"
    | _ => ⟨up.reverse⟩

/-- Consume exactly `k` digit characters. -/
def takeDigits : Nat → List Char → Option (List Char)
  | 0, l => some l
  | _ + 1, [] => none
  | k + 1, c :: rest => if c.isDigit then takeDigits k rest else none

/-- Consume one expected character. -/
def expectChar (c : Char) : List Char → Option (List Char)
  | [] => none
  | x :: rest => if x = c then some rest else none

/-- `[a-z0-9]` under the `i` flag: ASCII alphanumeric. -/
def isExtAlnum (c : Char) : Bool := c.isAlphanum

/-- `\.[a-z0-9]+$` (with `i`). -/
def matchExtEnd : List Char → Bool
  | '.' :: rest => !rest.isEmpty && rest.all isExtAlnum
  | _ => false

/-- `\.(png|jpg|jpeg|mov|mp4)$` (with `i`). -/
def matchLegacyExtEnd : List Char → Bool
  | '.' :: rest =>
    ["png", "jpg", "jpeg", "mov", "mp4"].contains (⟨lowerChars rest⟩ : String)
  | _ => false

/-- `(?:_\d+)?` followed by the end-of-name matcher `extEnd`.  The greedy
digit run never needs backtracking because a digit is not `'.'`, and when
the optional group fails its empty alternative also fails (`'_'` is not
`'.'`). -/
def matchOptCounterWith (extEnd : List Char → Bool) : List Char → Bool
  | '_' :: rest =>
    let ds := rest.takeWhile Char.isDigit
    !ds.isEmpty && extEnd (rest.dropWhile Char.isDigit)
  | l => extEnd l

/-- `\d{4}-\d{2}-\d{2}_\d{2}-\d{2}-\d{2}` then the optional counter and the
extension. -/
def parseCanonTailWith (extEnd : List Char → Bool) (l : List Char) : Bool :=
  match (takeDigits 4 l).bind (expectChar '-') |>.bind (takeDigits 2) |>.bind (expectChar '-')
      |>.bind (takeDigits 2) |>.bind (expectChar '_') |>.bind (takeDigits 2)
      |>.bind (expectChar '-') |>.bind (takeDigits 2) |>.bind (expectChar '-')
      |>.bind (takeDigits 2) with
  | some r => matchOptCounterWith extEnd r
  | none => false

/-- The anchored, case-insensitive test
`^{escapeRegExp(pfx)}_\d{4}-\d{2}-\d{2}_\d{2}-\d{2}-\d{2}(?:_\d+)?<ending>$`. -/
def matchesCanonicalWith (extEnd : List Char → Bool) (pfx : String) (b : List Char) : Bool :=
  match stripCI pfx.data b with
  | none => false
  | some rest =>
    match rest with
    | '_' :: r1 => parseCanonTailWith extEnd r1
    | _ => false

/-- RenameService.needsRenameForProfile. -/
def needsRenameForProfile (filename : String) (p : Profile) : Bool :=
  let b := jsBasename filename
  let pfx := sanitizePfx (if p.pfx = "" then "File" else p.pfx)
  !(matchesCanonicalWith matchExtEnd pfx b.data)

/-- RenameService.needsRename (legacy). -/
def needsRename (filename : String) (pfxArg : String) : Bool :=
  let b := jsBasename filename
  let p := sanitizePfx (if pfxArg = "" then "Screenshot" else pfxArg)
  !(matchesCanonicalWith matchLegacyExtEnd p b.data)

/-- RenameService.splitBase.  `filename.slice(0, -ext.length)` yields the
empty string when the extension is empty (JS `slice(0, -0)`). -/
def splitBase (filename : String) : String × String :=
  let ext := jsExtname filename
  let name : String :=
    if ext = "" then "" else ⟨filename.data.take (filename.data.length - ext.data.length)⟩
  (name, ext)

/-- `(stat.ext || getExt(srcPath) || '.png').replace(/^\.+/, '.')`. -/
def collapseLeadingDots : List Char → List Char
  | '.' :: rest => '.' :: rest.dropWhile (· = '.')
  | l => l

/-- The extension actually used by `targetFor` / `targetForProfile`. -/
def normalizeExtArg (statExt : String) (srcPath : String) : String :=
  let e0 := if statExt ≠ "" then statExt
    else if getExt srcPath ≠ "" then getExt srcPath else ".png"
  ⟨collapseLeadingDots e0.data⟩

/-- The `n`-th candidate of the reservation loop: the base name itself,
then `{name}_{2}{ext}`, `{name}_{3}{ext}`, ... -/
def candidateAt (base name ext : String) (i : Nat) : String :=
  if i = 0 then base else name ++ "_" ++ (⟨decDigits (i + 1)⟩ : String) ++ ext

/-- RenameService.reserveTarget's loop.  `disk` is the set of joined paths
for which `fs.access` succeeds; `inFlight` is the reservation set (keys are
`path.resolve(dir, candidate)`).  When the candidate is already reserved the
set is untouched; when it is free but occupied on disk the key is added and
removed again around the `exists` check, leaving the set unchanged; both
cases move to the next candidate.  `fuel` bounds the unbounded JS loop. -/
def reserveGo (cwd : String) (disk : List String) (dir base name ext : String) :
    Nat → Nat → List String → Option (String × List String)
  | 0, _, _ => none
  | fuel + 1, i, inFlight =>
    let candidate := candidateAt base name ext i
    let key := resolvePath cwd (pathJoin dir candidate)
    if inFlight.contains key then
      reserveGo cwd disk dir base name ext fuel (i + 1) inFlight
    else if disk.contains (pathJoin dir candidate) then
      reserveGo cwd disk dir base name ext fuel (i + 1) inFlight
    else
      some (candidate, key :: inFlight)

/-- RenameService.reserveTarget. -/
def reserveTarget (cwd : String) (disk : List String) (dir base : String)
    (inFlight : List String) (fuel : Nat) : Option (String × List String) :=
  let (name, ext) := splitBase base
  reserveGo cwd disk dir base name ext fuel 0 inFlight

/-- RenameService.release. -/
def release (cwd : String) (dir target : String) (inFlight : List String) : List String :=
  inFlight.erase (resolvePath cwd (pathJoin dir target))

/-- RenameService.targetForProfile: expand the profile template for the
source file, then reserve a collision-free target basename.  Returns the
reserved basename, the new reservation set, and the directory. -/
def targetForProfile (cwd : String) (disk : List String) (srcPath statExt : String)
    (birth : DateTime) (p : Profile) (inFlight : List String) (fuel : Nat) :
    Option (String × List String × String) :=
  let dir := jsDirname srcPath
  let ext := normalizeExtArg statExt srcPath
  let template := if p.template = "" then DEFAULT_TEMPLATE else p.template
  let ctx : TemplateContext :=
    { originalPath := srcPath, birthtime := birth, ext := ext,
      pfx := if p.pfx = "" then "File" else p.pfx, counter := none }
  let baseName := buildNameFromTemplate template ctx
  (reserveTarget cwd disk dir baseName inFlight fuel).map (fun r => (r.1, r.2, dir))

/-- RenameService.targetFor (legacy naming). -/
def targetFor (cwd : String) (disk : List String) (srcPath statExt pfxArg : String)
    (birth : DateTime) (inFlight : List String) (fuel : Nat) :
    Option (String × List String × String) :=
  let dir := jsDirname srcPath
  let ext := normalizeExtArg statExt srcPath
  let base := buildName pfxArg birth ext
  (reserveTarget cwd disk dir base inFlight fuel).map (fun r => (r.1, r.2, dir))

/-! ## ConfigStore -/

/-- IConfig through the fields ConfigStore.validateConfig handles
(`prefix` is `pfx`, `include`/`exclude` are `includeGlobs`/`excludeGlobs`);
`profiles` is carried through the merge untouched by `validateConfig`. -/
structure Config where
  watchDir : String
  watchDirs : List String
  pfx : String
  includeGlobs : List String
  excludeGlobs : List String
  dryRun : Bool
  theme : String
  launchOnLogin : Bool
  profiles : List Profile
deriving DecidableEq, Repr

/-- `Partial<IConfig>` for the typed API: `none` is an absent property. -/
structure ConfigInput where
  watchDir : Option String := none
  watchDirs : Option (List String) := none
  pfx : Option String := none
  includeGlobs : Option (List String) := none
  excludeGlobs : Option (List String) := none
  dryRun : Option Bool := none
  theme : Option String := none
  launchOnLogin : Option Bool := none
  profiles : Option (List Profile) := none
deriving DecidableEq, Repr

/-- `DEFAULT_WATCH_DIR`: `HOME ? path.join(HOME, 'Desktop') : ''`.
`home` is the HOME environment variable, `""` when unset or empty. -/
def defaultWatchDir (home : String) : String :=
  if home = "" then "" else home ++ "/Desktop"

/-- ConfigStore.DEFAULT_CONFIG (it has no `profiles` property). -/
def DEFAULT_CONFIG (home : String) : Config :=
  { watchDir := defaultWatchDir home,
    watchDirs := if defaultWatchDir home = "" then [] else [defaultWatchDir home],
    pfx := "Screenshot", includeGlobs := ["Screenshot*"], excludeGlobs := [],
    dryRun := true, theme := "default", launchOnLogin := false, profiles := [] }

/-- The `seen`-set dedup loop at the end of `sanitizeDirs` (first occurrence
wins, insertion order preserved). -/
def dedup (l : List String) : List String :=
  l.foldl (fun acc d => if acc.contains d then acc else acc ++ [d]) []

/-- ConfigStore.sanitizeDirs: trim, drop empties, resolve, fall back to the
default watch dir, dedup. -/
def sanitizeDirs (cwd home : String) (rawDirs : List String) : List String :=
  let dirs := rawDirs.filterMap
    (fun e => if jsTrim e ≠ "" then some (resolvePath cwd (jsTrim e)) else none)
  let dirs := if dirs.isEmpty && defaultWatchDir home ≠ "" then
    [resolvePath cwd (defaultWatchDir home)] else dirs
  dedup dirs

/-- ConfigStore.validateConfig on a typed input (the `typeof` guards reduce
to presence/emptiness checks).  Follows the source statement order: spread
over the defaults, candidate dirs, sanitize, watchDir fallback, primary-dir
promotion, field coercions. -/
def validateConfig (cwd home : String) (input : ConfigInput) : Config :=
  let dflt := DEFAULT_CONFIG home
  let mWatchDir := input.watchDir.getD dflt.watchDir
  let mWatchDirs := input.watchDirs.getD dflt.watchDirs
  let candidateDirs :=
    match input.watchDirs with
    | some ds => ds
    | none =>
      match input.watchDir with
      | some w => if w ≠ "" then [w] else mWatchDirs
      | none => mWatchDirs
  let watchDirs1 := sanitizeDirs cwd home candidateDirs
  let watchDir1 := if mWatchDir = "" then watchDirs1.head?.getD dflt.watchDir else mWatchDir
  let watchDirs2 :=
    if watchDir1 ≠ "" then watchDir1 :: watchDirs1.filter (· ≠ watchDir1) else watchDirs1
  let watchDirs3 := if watchDirs2.isEmpty && watchDir1 ≠ "" then [watchDir1] else watchDirs2
  let mPfx := input.pfx.getD dflt.pfx
  let mInclude := input.includeGlobs.getD dflt.includeGlobs
  let mTheme := input.theme.getD dflt.theme
  { watchDir := watchDir1,
    watchDirs := watchDirs3,
    pfx := if mPfx = "" then dflt.pfx else mPfx,
    includeGlobs := if mInclude.isEmpty then dflt.includeGlobs else mInclude,
    excludeGlobs := input.excludeGlobs.getD dflt.excludeGlobs,
    dryRun := input.dryRun.getD dflt.dryRun,
    theme := if mTheme = "" then dflt.theme else mTheme,
    launchOnLogin := input.launchOnLogin.getD dflt.launchOnLogin,
    profiles := input.profiles.getD dflt.profiles }

/-- `{ ...(await this.get()), ...next }`: the object spread in
ConfigStore.set. -/
def mergeInput (cur : Config) (next : ConfigInput) : ConfigInput :=
  { watchDir := some (next.watchDir.getD cur.watchDir),
    watchDirs := some (next.watchDirs.getD cur.watchDirs),
    pfx := some (next.pfx.getD cur.pfx),
    includeGlobs := some (next.includeGlobs.getD cur.includeGlobs),
    excludeGlobs := some (next.excludeGlobs.getD cur.excludeGlobs),
    dryRun := some (next.dryRun.getD cur.dryRun),
    theme := some (next.theme.getD cur.theme),
    launchOnLogin := some (next.launchOnLogin.getD cur.launchOnLogin),
    profiles := some (next.profiles.getD cur.profiles) }

/-- ConfigStore.set: merge with the current config, validate, persist. -/
def setConfig (cwd home : String) (cur : Config) (next : ConfigInput) : Config :=
  validateConfig cwd home (mergeInput cur next)

/-- Outcome of the first-call load in ConfigStore.get: the file is missing
(`readFile` throws a Node error with `code === 'ENOENT'`), its contents fail
`JSON.parse` (a `SyntaxError`, which carries no `code` property — in
particular never the string `'JSON_PARSE'`), or they parse to a value
(`validateConfig` then never throws: it coerces bad shapes field by field). -/
inductive LoadOutcome
  | missing
  | parseError
  | parsed (p : ConfigInput)
deriving DecidableEq

/-- The `code` property of the error caught in ConfigStore.get. -/
def errCode : LoadOutcome → Option String
  | .missing => some "ENOENT"
  | .parseError => none
  | .parsed _ => none

/-- Result of ConfigStore.get (first call): the returned config and whether
`persist(DEFAULT_CONFIG)` ran (i.e. the on-disk file was overwritten). -/
structure GetResult where
  config : Config
  persisted : Bool
deriving DecidableEq, Repr

/-- ConfigStore.get, first call. -/
def configStoreGet (cwd home : String) (outcome : LoadOutcome) : GetResult :=
  match outcome with
  | .parsed p => { config := validateConfig cwd home p, persisted := false }
  | .missing | .parseError =>
    if errCode outcome = some "ENOENT" || errCode outcome = some "JSON_PARSE" then
      { config := DEFAULT_CONFIG home, persisted := true }
    else
      { config := DEFAULT_CONFIG home, persisted := false }

/-! ## JournalStore -/

/-- A journal entry `{from, to, ts}` (rendered `from_`/`to_`). -/
structure JEntry where
  from_ : String
  to_ : String
  ts : Nat
deriving DecidableEq, Repr

/-- JournalStore state: the NDJSON file contents (`disk`; a missing file is
`[]`, as `load` maps ENOENT to an empty cache) and the in-memory `cache`. -/
structure JState where
  disk : List JEntry
  cache : List JEntry
deriving DecidableEq, Repr

/-- JournalStore.record: append to the file, push onto the cache. -/
def journalRecord (st : JState) (e : JEntry) : JState :=
  { disk := st.disk ++ [e], cache := st.cache ++ [e] }

/-- Result of JournalStore.undo: `{ok, reason}` plus the poststate, whether
the journal file was read (`load` ran), and which entry's reverse rename was
attempted. -/
structure UndoResult where
  ok : Bool
  reason : Option String
  state : JState
  didLoad : Bool
  attempted : Option JEntry
deriving DecidableEq, Repr

/-- JournalStore.undo.  `renameOk` is the outcome oracle for the
`restoreTarget` computation plus `fsSafe.atomicRename(last.to, target)`
(`false` = that code throws, with message `failMsg`).  Mirrors the source:
the cache is loaded from disk only when empty, `cache.pop()` removes the
last entry before the rename is attempted, the popped entry is not restored
when the rename throws, and the file is rewritten from the cache only on
success. -/
def journalUndo (st : JState) (renameOk : Bool) (failMsg : String) : UndoResult :=
  let didLoad := st.cache.isEmpty
  let cache1 := if st.cache.isEmpty then st.disk else st.cache
  match cache1.getLast? with
  | none =>
    { ok := false, reason := some "empty", state := { st with cache := cache1 },
      didLoad := didLoad, attempted := none }
  | some last =>
    let popped := cache1.dropLast
    if renameOk then
      { ok := true, reason := none, state := { disk := popped, cache := popped },
        didLoad := didLoad, attempted := some last }
    else
      { ok := false, reason := some failMsg, state := { disk := st.disk, cache := popped },
        didLoad := didLoad, attempted := some last }

/-! ## TypedEmitter / EventBus delivery -/

/-- A registered listener, modelled by its behaviour on the emitted payload:
it either returns normally or throws synchronously. -/
inductive HandlerOutcome (ε : Type)
  | ok
  | throws (e : ε)
deriving DecidableEq, Repr

/-- Helper for `emitRun`: invoke from index `i` on. -/
def emitRunGo {ε : Type} : Nat → List (HandlerOutcome ε) → List Nat × Option ε
  | _, [] => ([], none)
  | i, .ok :: rest =>
    let r := emitRunGo (i + 1) rest
    (i :: r.1, r.2)
  | i, .throws e :: _ => ([i], some e)

/-- Node `EventEmitter.prototype.emit` as used by TypedEmitter and EventBus
(`captureRejections: true`): listeners run synchronously in registration
order; a synchronous throw propagates out of `emit` at once, so the
remaining listeners are not invoked (`captureRejections` only routes
rejected promises returned by listeners, it does not catch synchronous
throws).  Returns the 0-based indices invoked, in order, and the first
thrown error. -/
def emitRun {ε : Type} (handlers : List (HandlerOutcome ε)) : List Nat × Option ε :=
  emitRunGo 0 handlers

/-! ## NamefixService pipelines

Each handler is modelled as a function from its oracle inputs (converter
outcome, trash outcome, rename outcome, source-existence polling) to the
ordered trace of externally visible steps it performs: emitter events and
disk operations.  The mirrored `eventBus.emit('file:…')` notifications and
logger calls are omitted; the `fs.access` probes of the reservation loop and
the existence poll are reads and appear as `opStatRead` coarsely. -/

/-- One externally visible step of a pipeline run, in program order. -/
inductive Step
  | emitPreview (file target : String)
  | emitApplied (file target : String)
  | emitSkipped (file msg : String)
  | emitError (file msg : String)
  | emitConverted (file target : String)
  | emitConvertError (file msg : String)
  | emitTrashed (file : String)
  | emitToastWarn (msg : String)
  | opConvert (src : String)
  | opTrash (src : String)
  | opRename (src dst : String)
  | opJournalRecord (src dst : String)
  | opStatRead (p : String)
deriving DecidableEq, Repr

/-- Steps that mutate the disk (rename, conversion output, trash move,
journal append); stat/access reads and event emissions do not. -/
def Step.isDiskMutation : Step → Bool
  | .opConvert _ => true
  | .opTrash _ => true
  | .opRename _ _ => true
  | .opJournalRecord _ _ => true
  | _ => false

/-- Outcome of `trasher.moveToTrash`: resolves `{success:true}`, resolves
`{success:false, error}`, or rejects. -/
inductive TrashOutcome
  | ok
  | failed (err : String)
  | thrown
deriving DecidableEq, Repr

/-- Node `path.basename(p, ext)`: basename with a matching `ext` suffix
stripped (kept when the basename is the suffix itself). -/
def endsWithL (l pat : List Char) : Bool := startsWithL pat.reverse l.reverse

/-- Node `path.basename(p, ext)`. -/
def jsBasenameSans (p ext : String) : String :=
  let b := jsBasename p
  if ext ≠ "" && b ≠ ext && endsWithL b.data ext.data then
    ⟨b.data.take (b.data.length - ext.data.length)⟩
  else b

/-- The trash block shared by `handleConvert` and `handleRenameAndConvert`:
best-effort `moveToTrash(ev.path)`, then `trashed` on success, a warn toast
quoting the error on `{success:false}`, or a warn toast quoting the basename
when the call throws. -/
def trashSteps (srcPath basename : String) (trash : TrashOutcome) : List Step :=
  match trash with
  | .ok => [.opTrash srcPath, .emitTrashed basename]
  | .failed err => [.opTrash srcPath, .emitToastWarn ("Could not trash original: " ++ err)]
  | .thrown => [.opTrash srcPath, .emitToastWarn ("Could not trash original: " ++ basename)]

/-- NamefixService.handleConvert.  `canConv` is `converter.canConvert(ext)`;
`conv` is the outcome of `converter.convert(ev.path, {outputFormat:'jpeg'})`
(`.ok destPath` or `.error message`). -/
def handleConvert (dryRun canConv : Bool) (basename extVal srcPath : String)
    (conv : Except String String) (trash : TrashOutcome) : List Step :=
  if !canConv then [.emitSkipped basename "unsupported format"]
  else if dryRun then
    [.emitPreview basename (jsBasenameSans basename extVal ++ ".jpeg")]
  else
    match conv with
    | .error msg =>
      [.opConvert srcPath,
       .emitConvertError basename (if msg = "" then "conversion failed" else msg)]
    | .ok destPath =>
      [.opConvert srcPath, .emitConverted basename (jsBasename destPath),
       .opJournalRecord srcPath destPath] ++ trashSteps srcPath basename trash

/-- NamefixService.handleRenameOnly.  Oracles: `srcStillExists` is the first
`pathExists(ev.path)` check, `pollRestores` whether any of the six 150 ms
re-checks sees the file again, `renameRes` the outcome of
`fsSafe.atomicRename`.  Returns the step trace and the reservation set after
the `finally` release; `none` when the reservation loop runs out of fuel. -/
def handleRenameOnly (cwd : String) (disk : List String) (dryRun : Bool)
    (basename extVal srcPath : String) (birth : DateTime) (p : Profile)
    (inFlight : List String) (fuel : Nat)
    (srcStillExists pollRestores : Bool) (renameRes : Except String Unit) :
    Option (List Step × List String) :=
  if !needsRenameForProfile basename p then
    some ([.emitSkipped basename "idempotent"], inFlight)
  else
    (targetForProfile cwd disk srcPath extVal birth p inFlight fuel).map (fun r =>
      let targetBase := r.1
      let s1 := r.2.1
      let dir := r.2.2
      let targetPath := pathJoin dir targetBase
      let steps :=
        if dryRun then [.emitPreview basename targetBase]
        else if !srcStillExists && !pollRestores then [.opStatRead srcPath]
        else
          .opStatRead srcPath ::
          match renameRes with
          | .ok _ =>
            [.opRename srcPath targetPath, .opJournalRecord srcPath targetPath,
             .emitApplied basename targetBase]
          | .error msg =>
            [.opRename srcPath targetPath,
             .emitError basename (if msg = "" then "rename failed" else msg)]
      (steps, release cwd dir targetBase s1))

/-- NamefixService.handleRenameAndConvert: convert, then rename the
converted output via a fresh reservation, then trash the original; a convert
exception short-circuits to `convert-error`. -/
def handleRenameAndConvert (cwd : String) (disk : List String) (dryRun canConv : Bool)
    (basename extVal srcPath dir : String) (birth : DateTime) (p : Profile)
    (inFlight : List String) (fuel : Nat)
    (conv : Except String String) (renameRes : Except String Unit)
    (trash : TrashOutcome) : Option (List Step × List String) :=
  if !canConv then some ([.emitSkipped basename "unsupported format"], inFlight)
  else if dryRun then
    some ([.emitPreview basename (jsBasenameSans basename extVal ++ ".jpeg")], inFlight)
  else
    match conv with
    | .error msg =>
      some ([.opConvert srcPath,
             .emitConvertError basename (if msg = "" then "conversion failed" else msg)],
            inFlight)
    | .ok destPath =>
      let convertedBasename := jsBasename destPath
      let convertedExt := jsExtname destPath
      (targetForProfile cwd disk destPath convertedExt birth p inFlight fuel).map (fun r =>
        let targetBase := r.1
        let s1 := r.2.1
        let targetPath := pathJoin dir targetBase
        let renameSteps :=
          match renameRes with
          | .ok _ =>
            [.opRename destPath targetPath, .opJournalRecord srcPath targetPath,
             .emitApplied convertedBasename targetBase]
          | .error msg =>
            [.opRename destPath targetPath,
             .emitError convertedBasename (if msg = "" then "rename failed" else msg)]
        ([.opConvert srcPath, .emitConverted basename convertedBasename] ++ renameSteps
           ++ trashSteps srcPath basename trash,
         release cwd dir targetBase s1))

/-- NamefixService.handleLegacyRename (include/exclude fallback), same shape
as `handleRenameOnly` with the legacy idempotence check and naming. -/
def handleLegacyRename (cwd : String) (disk : List String) (dryRun : Bool)
    (basename extVal srcPath cfgPfx : String) (birth : DateTime)
    (inFlight : List String) (fuel : Nat)
    (srcStillExists pollRestores : Bool) (renameRes : Except String Unit) :
    Option (List Step × List String) :=
  if !needsRename basename cfgPfx then
    some ([.emitSkipped basename "idempotent"], inFlight)
  else
    (targetFor cwd disk srcPath extVal cfgPfx birth inFlight fuel).map (fun r =>
      let targetBase := r.1
      let s1 := r.2.1
      let dir := r.2.2
      let targetPath := pathJoin dir targetBase
      let steps :=
        if dryRun then [.emitPreview basename targetBase]
        else if !srcStillExists && !pollRestores then [.opStatRead srcPath]
        else
          .opStatRead srcPath ::
          match renameRes with
          | .ok _ =>
            [.opRename srcPath targetPath, .opJournalRecord srcPath targetPath,
             .emitApplied basename targetBase]
          | .error msg =>
            [.opRename srcPath targetPath,
             .emitError basename (if msg = "" then "rename failed" else msg)]
      (steps, release cwd dir targetBase s1))

/-- NamefixService.handleProfileRename: route on `profile.action ?? 'rename'`. -/
def handleProfileRename (cwd : String) (disk : List String) (dryRun canConv : Bool)
    (basename extVal srcPath dir : String) (birth : DateTime) (p : Profile)
    (inFlight : List String) (fuel : Nat)
    (conv : Except String String) (renameRes : Except String Unit) (trash : TrashOutcome)
    (srcStillExists pollRestores : Bool) : Option (List Step × List String) :=
  match p.action.getD PAction.rename with
  | .convert => some (handleConvert dryRun canConv basename extVal srcPath conv trash, inFlight)
  | .renameConvert =>
    handleRenameAndConvert cwd disk dryRun canConv basename extVal srcPath dir birth p
      inFlight fuel conv renameRes trash
  | .rename =>
    handleRenameOnly cwd disk dryRun basename extVal srcPath birth p inFlight fuel
      srcStillExists pollRestores renameRes

/-! ## Default-profile injection (modelled from the spec)

The repository's tests (ConfigStore.spec.ts) exercise a load-time merge that
re-adds missing built-in profiles — including a `heic-convert` profile — but
the implementing code and the three-profile default list are not among the
sources here (the `NameTemplate.ts` present carries only the two rename
profiles and `validateConfig` does not touch `profiles`). -/

/-- Modelled from the spec: the built-in default profile set that "must
appear in every valid config (re-added if missing)": `heic-convert`
(pattern `*.heic`, action convert, priority 0), `screenshots`
(pattern `Screenshot*`, rename, priority 1), `screen-recordings`
(pattern `Screen Recording*`, rename, priority 2).  The two rename profiles
are the source's `DEFAULT_PROFILES` entries; `heic-convert` takes its `name`
from the test expectations. -/
def DEFAULT_PROFILES_FULL : List Profile :=
  { id := "heic-convert", name := "HEIC to JPEG", enabled := true,
    pattern := "*.heic", isRegex := false, template := "<original>",
    pfx := "", priority := 0, action := some PAction.convert } :: DEFAULT_PROFILES

/-- Modelled from the spec: "`profiles` always contains every built-in
default profile (matched by id) — missing defaults are re-injected at load
time".  Missing defaults are prepended, matching the order asserted by
ConfigStore.spec.ts (`heicIdx < screenshotsIdx`). -/
def withDefaultProfiles (ps : List Profile) : List Profile :=
  DEFAULT_PROFILES_FULL.filter (fun d => !(ps.any (fun q => q.id == d.id))) ++ ps

/-- Modelled from the spec: the config load path including the profile
migration — `validateConfig` followed by re-injection of missing default
profiles. -/
def validateConfigFull (cwd home : String) (input : ConfigInput) : Config :=
  let c := validateConfig cwd home input
  { c with profiles := withDefaultProfiles c.profiles }

/-! # Theorems for the claims -/

/-! ## C2 — failed undo and the journal state -/

/-- Journal entry used in the C2 run. -/
def c2e1 : JEntry := { from_ := "/w/a.png", to_ := "/w/Screenshot_A.png", ts := 1 }

/-- Journal entry used in the C2 run. -/
def c2e2 : JEntry := { from_ := "/w/b.png", to_ := "/w/Screenshot_B.png", ts := 2 }

/-- C2: the claim states that when the reverse rename of `undo()` throws,
neither the on-disk journal nor the in-memory journal state changes, so an
immediately repeated `undo()` retries the same (last) entry.  Evaluating the
code on a journal holding `[c2e1, c2e2]` whose reverse rename throws shows
the on-disk file is indeed untouched, but `cache.pop()` has already removed
`c2e2` from the in-memory state and the catch block does not restore it: the
repeated `undo()` attempts `c2e1` instead of retrying `c2e2`.  The code
contradicts the spec's stated failure semantics ("undo never mutates the
journal until the reverse rename succeeds; a failed undo leaves the entry in
place so it can be retried"). -/
theorem c2_undo_failure_divergence :
    (journalUndo { disk := [c2e1, c2e2], cache := [c2e1, c2e2] } false "EBUSY").ok = false
    ∧ (journalUndo { disk := [c2e1, c2e2], cache := [c2e1, c2e2] } false "EBUSY").reason
        = some "EBUSY"
    ∧ (journalUndo { disk := [c2e1, c2e2], cache := [c2e1, c2e2] } false "EBUSY").state.disk
        = [c2e1, c2e2]
    ∧ (journalUndo { disk := [c2e1, c2e2], cache := [c2e1, c2e2] } false "EBUSY").state.cache
        = [c2e1]
    ∧ (journalUndo
        (journalUndo { disk := [c2e1, c2e2], cache := [c2e1, c2e2] } false "EBUSY").state
        false "EBUSY").attempted = some c2e1 := by
  decide

/-! ## C10 — undo after in-process records -/

/-- C10 counterexample: the claim states that once `record()` has run,
every subsequent `undo()` never reads the journal file.  But after a
successful undo empties the cache, the next `undo()` finds an empty cache
and calls `load()`, which reads the file. -/
theorem c10_counterexample :
    (journalUndo (journalRecord { disk := [], cache := [] }
        { from_ := "/w/a.png", to_ := "/w/A.png", ts := 1 }) true "").ok = true
    ∧ (journalUndo
        (journalUndo (journalRecord { disk := [], cache := [] }
          { from_ := "/w/a.png", to_ := "/w/A.png", ts := 1 }) true "").state
        true "").didLoad = true := by
  decide

/-- C10 (amended): as long as the in-memory cache is nonempty — in
particular between a `record()` and the draining of the in-process entries —
`undo()` never reads the journal file, it pops exactly the last in-process
entry, and a successful undo rewrites the file to exactly the remaining
cache, discarding any disk entries persisted by earlier runs.  Once the
cache empties, a subsequent `undo()` reloads from disk (see the
counterexample). -/
theorem c10_undo_in_process (st : JState) (renameOk : Bool) (msg : String)
    (h : st.cache ≠ []) :
    (journalUndo st renameOk msg).didLoad = false
    ∧ (journalUndo st renameOk msg).attempted = st.cache.getLast?
    ∧ (renameOk = true →
        (journalUndo st renameOk msg).state.disk = st.cache.dropLast
        ∧ (journalUndo st renameOk msg).state.cache = st.cache.dropLast) := by
  have hne : st.cache.isEmpty = false := by
    cases hc : st.cache with
    | nil => exact absurd hc h
    | cons a t => rfl
  unfold journalUndo
  rw [hne]
  simp only [Bool.false_eq_true, if_false]
  cases hl : st.cache.getLast? with
  | none =>
    exfalso
    exact h (List.getLast?_eq_none_iff.mp hl)
  | some last =>
    cases renameOk <;> simp

/-- Witness for the C10 theorem at a concrete journal. -/
theorem c10_undo_in_process_witness :
    ([({ from_ := "/p.png", to_ := "/q.png", ts := 0 } : JEntry)] ≠ ([] : List JEntry))
    ∧ (journalUndo { disk := [], cache := [{ from_ := "/p.png", to_ := "/q.png", ts := 0 }] }
        true "x").didLoad = false :=
  ⟨by decide,
   (c10_undo_in_process
      { disk := [], cache := [{ from_ := "/p.png", to_ := "/q.png", ts := 0 }] }
      true "x" (by decide)).1⟩

/-! ## C3 — what ConfigStore.get persists -/

/-- C3 counterexample: the claim states that a JSON parse failure on the
first `get()` writes the defaults to disk.  It does not: `JSON.parse` throws
a `SyntaxError` with no `code` property, so the
`err.code === 'ENOENT' || err.code === 'JSON_PARSE'` test fails and the
store falls back without persisting. -/
theorem c3_parse_error_not_persisted :
    (configStoreGet "/cwd" "/home/user" LoadOutcome.parseError).persisted = false := by
  decide

/-- C3 (amended): on the first `get()`, only a missing config file (ENOENT)
causes the defaults to be written to disk and returned; a JSON parse error
falls back to the defaults leaving the on-disk file untouched (exactly like
structural invalidation), and a file that parses is validated and never
overwritten. -/
theorem c3_get_first_call (cwd home : String) :
    ((configStoreGet cwd home LoadOutcome.missing).persisted = true
      ∧ (configStoreGet cwd home LoadOutcome.missing).config = DEFAULT_CONFIG home)
    ∧ ((configStoreGet cwd home LoadOutcome.parseError).persisted = false
      ∧ (configStoreGet cwd home LoadOutcome.parseError).config = DEFAULT_CONFIG home)
    ∧ (∀ p : ConfigInput,
        (configStoreGet cwd home (LoadOutcome.parsed p)).persisted = false
        ∧ (configStoreGet cwd home (LoadOutcome.parsed p)).config = validateConfig cwd home p) := by
  refine ⟨⟨?_, ?_⟩, ⟨?_, ?_⟩, fun p => ⟨rfl, rfl⟩⟩ <;> rfl

/-! ## C9 — emitter delivery discipline -/

theorem emitRunGo_all_ok {ε : Type} :
    ∀ (hs : List (HandlerOutcome ε)) (i : Nat), (∀ h ∈ hs, h = HandlerOutcome.ok) →
      emitRunGo i hs = (List.range' i hs.length, none) := by
  intro hs
  induction hs with
  | nil => intro i _; rfl
  | cons h rest ih =>
    intro i hall
    have hh : h = HandlerOutcome.ok := hall h (List.mem_cons_self h rest)
    subst hh
    rw [emitRunGo]
    have := ih (i + 1) (fun x hx => hall x (List.mem_cons_of_mem _ hx))
    rw [this]
    simp [List.range'_succ]

theorem emitRunGo_first_throw {ε : Type} :
    ∀ (hs : List (HandlerOutcome ε)) (i k : Nat) (e : ε),
      hs[k]? = some (HandlerOutcome.throws e) →
      (∀ j < k, ∀ e', hs[j]? ≠ some (HandlerOutcome.throws e')) →
      emitRunGo i hs = (List.range' i (k + 1), some e) := by
  intro hs
  induction hs with
  | nil => intro i k e hk _; simp at hk
  | cons h rest ih =>
    intro i k e hk hfirst
    cases k with
    | zero =>
      simp only [List.getElem?_cons_zero, Option.some.injEq] at hk
      subst hk
      rw [emitRunGo]
      simp [List.range'_succ]
    | succ k =>
      have hh : h = HandlerOutcome.ok := by
        cases h with
        | ok => rfl
        | throws e' =>
          exact absurd (by simp : (HandlerOutcome.throws e' :: rest)[0]? =
            some (HandlerOutcome.throws e')) (hfirst 0 (Nat.succ_pos k) e')
      subst hh
      rw [emitRunGo]
      have hk' : rest[k]? = some (HandlerOutcome.throws e) := by
        simpa using hk
      have hf' : ∀ j < k, ∀ e', rest[j]? ≠ some (HandlerOutcome.throws e') := by
        intro j hj e' hje
        exact hfirst (j + 1) (Nat.succ_lt_succ hj) e' (by simpa using hje)
      rw [ih (i + 1) k e hk' hf']
      simp [List.range'_succ]

/-- C9 counterexample: the claim states that an exception in one handler
does not prevent the remaining handlers from being invoked.  With two
registered handlers where the first throws, Node's `EventEmitter.emit`
propagates the throw at once and the second handler is never invoked. -/
theorem c9_counterexample :
    (emitRun [HandlerOutcome.throws "boom", HandlerOutcome.ok]).1 = [0]
    ∧ 1 ∉ (emitRun [HandlerOutcome.throws "boom", HandlerOutcome.ok]).1 := by
  decide

/-- C9 (amended): handlers are invoked synchronously in registration order,
but only up to and including the first handler that throws synchronously:
when no handler throws, all `n` handlers run in registration order; when the
first throwing handler sits at index `i`, exactly handlers `0..i` run and
the exception propagates out of `emit`, skipping the rest. -/
theorem c9_emitter_delivery {ε : Type} (handlers : List (HandlerOutcome ε)) :
    ((∀ h ∈ handlers, h = HandlerOutcome.ok) →
      emitRun handlers = (List.range handlers.length, none))
    ∧ (∀ (i : Nat) (e : ε), handlers[i]? = some (HandlerOutcome.throws e) →
        (∀ j < i, ∀ e', handlers[j]? ≠ some (HandlerOutcome.throws e')) →
        emitRun handlers = (List.range (i + 1), some e)) := by
  constructor
  · intro hall
    rw [emitRun, emitRunGo_all_ok handlers 0 hall, List.range_eq_range']
  · intro i e hi hfirst
    rw [emitRun, emitRunGo_first_throw handlers 0 i e hi hfirst, List.range_eq_range']

/-- Witness for the C9 theorem: both branches at concrete handler lists. -/
theorem c9_emitter_delivery_witness :
    emitRun [HandlerOutcome.ok, HandlerOutcome.ok] = (List.range 2, (none : Option String))
    ∧ emitRun [HandlerOutcome.ok, HandlerOutcome.throws "boom", HandlerOutcome.ok]
        = (List.range 2, some "boom") :=
  ⟨(c9_emitter_delivery [HandlerOutcome.ok, HandlerOutcome.ok]).1 (by decide),
   (c9_emitter_delivery [HandlerOutcome.ok, HandlerOutcome.throws "boom", HandlerOutcome.ok]).2
     1 "boom" (by decide)
     (by
       intro j hj e'
       interval_cases j
       simp)⟩

/-! ## C1 — every built-in default profile appears exactly once -/

theorem any_id_true_iff (ps : List Profile) (i : String) :
    ps.any (fun q => q.id == i) = true ↔ 0 < (ps.filter (fun q => q.id == i)).length := by
  rw [List.any_eq_true]
  constructor
  · rintro ⟨q, hq, hqi⟩
    have hmem : q ∈ ps.filter (fun q => q.id == i) := List.mem_filter.mpr ⟨hq, hqi⟩
    exact List.length_pos.mpr (List.ne_nil_of_mem hmem)
  · intro hlen
    obtain ⟨q, hq⟩ := List.exists_mem_of_ne_nil _ (List.length_pos.mp hlen)
    have hm := List.mem_filter.mp hq
    exact ⟨q, hm.1, hm.2⟩

theorem validateConfig_profiles (cwd home : String) (input : ConfigInput) :
    (validateConfig cwd home input).profiles = input.profiles.getD [] := rfl

theorem filter_id_len_eq_one (ps : List Profile) (i : String)
    (h : ps.any (fun q => q.id == i) = true)
    (hp : (ps.filter (fun q => q.id == i)).length ≤ 1) :
    (ps.filter (fun q => q.id == i)).length = 1 := by
  have := (any_id_true_iff ps i).mp h
  omega

theorem filter_id_len_eq_zero (ps : List Profile) (i : String)
    (h : ps.any (fun q => q.id == i) = false) :
    (ps.filter (fun q => q.id == i)).length = 0 := by
  by_contra hne
  have hpos : 0 < (ps.filter (fun q => q.id == i)).length := Nat.pos_of_ne_zero hne
  have hany := (any_id_true_iff ps i).mpr hpos
  rw [h] at hany
  exact Bool.false_ne_true hany

/-- Count of profiles with a given id after injecting the missing defaults. -/
theorem withDefault_count (ps : List Profile) (d : Profile)
    (hd : d ∈ DEFAULT_PROFILES_FULL)
    (hp : (ps.filter (fun q => q.id == d.id)).length ≤ 1) :
    ((withDefaultProfiles ps).filter (fun q => q.id == d.id)).length = 1 := by
  unfold withDefaultProfiles
  rw [List.filter_append, List.length_append]
  fin_cases hd
  · simp only [] at hp ⊢
    cases h1 : (ps.any fun q => q.id == "heic-convert")
    · rw [filter_id_len_eq_zero ps "heic-convert" h1]
      cases h2 : (ps.any fun q => q.id == "screenshots") <;>
        cases h3 : (ps.any fun q => q.id == "screen-recordings") <;>
          simp [DEFAULT_PROFILES_FULL, DEFAULT_PROFILES, List.filter_cons, h1, h2, h3]
    · rw [filter_id_len_eq_one ps "heic-convert" h1 hp]
      cases h2 : (ps.any fun q => q.id == "screenshots") <;>
        cases h3 : (ps.any fun q => q.id == "screen-recordings") <;>
          simp [DEFAULT_PROFILES_FULL, DEFAULT_PROFILES, List.filter_cons, h1, h2, h3]
  · simp only [] at hp ⊢
    cases h2 : (ps.any fun q => q.id == "screenshots")
    · rw [filter_id_len_eq_zero ps "screenshots" h2]
      cases h1 : (ps.any fun q => q.id == "heic-convert") <;>
        cases h3 : (ps.any fun q => q.id == "screen-recordings") <;>
          simp [DEFAULT_PROFILES_FULL, DEFAULT_PROFILES, List.filter_cons, h1, h2, h3]
    · rw [filter_id_len_eq_one ps "screenshots" h2 hp]
      cases h1 : (ps.any fun q => q.id == "heic-convert") <;>
        cases h3 : (ps.any fun q => q.id == "screen-recordings") <;>
          simp [DEFAULT_PROFILES_FULL, DEFAULT_PROFILES, List.filter_cons, h1, h2, h3]
  · simp only [] at hp ⊢
    cases h3 : (ps.any fun q => q.id == "screen-recordings")
    · rw [filter_id_len_eq_zero ps "screen-recordings" h3]
      cases h1 : (ps.any fun q => q.id == "heic-convert") <;>
        cases h2 : (ps.any fun q => q.id == "screenshots") <;>
          simp [DEFAULT_PROFILES_FULL, DEFAULT_PROFILES, List.filter_cons, h1, h2, h3]
    · rw [filter_id_len_eq_one ps "screen-recordings" h3 hp]
      cases h1 : (ps.any fun q => q.id == "heic-convert") <;>
        cases h2 : (ps.any fun q => q.id == "screenshots") <;>
          simp [DEFAULT_PROFILES_FULL, DEFAULT_PROFILES, List.filter_cons, h1, h2, h3]

/-- C1: for every config produced by the validated load/set path, each
built-in default profile id appears exactly once in `profiles` (matched by
id), and when the stored profiles lack `heic-convert` the injected profile
is the built-in one with pattern `*.heic`, action convert, priority 0.  The
hypothesis — each default id occurs at most once in the stored profile list —
holds for every config the store itself writes, since the conclusion gives
exactly one occurrence. -/
theorem c1_default_profiles (cwd home : String) (input : ConfigInput)
    (h : ∀ d ∈ DEFAULT_PROFILES_FULL,
      ((input.profiles.getD []).filter (fun q => q.id == d.id)).length ≤ 1) :
    (∀ d ∈ DEFAULT_PROFILES_FULL,
      ((validateConfigFull cwd home input).profiles.filter (fun q => q.id == d.id)).length = 1)
    ∧ ((input.profiles.getD []).all (fun q => !(q.id == "heic-convert")) = true →
      ({ id := "heic-convert", name := "HEIC to JPEG", enabled := true, pattern := "*.heic",
         isRegex := false, template := "<original>", pfx := "", priority := 0,
         action := some PAction.convert } : Profile) ∈ (validateConfigFull cwd home input).profiles) := by
  have hprof : (validateConfigFull cwd home input).profiles
      = withDefaultProfiles (input.profiles.getD []) := rfl
  constructor
  · intro d hd
    rw [hprof]
    exact withDefault_count _ d hd (h d hd)
  · intro hall
    rw [hprof]
    have hany : (input.profiles.getD []).any (fun q => q.id == "heic-convert") = false := by
      rw [← Bool.not_eq_true, List.any_eq_true]
      rintro ⟨q, hq, hqi⟩
      have hq2 := List.all_eq_true.mp hall q hq
      rw [hqi] at hq2
      exact absurd hq2 (by decide)
    unfold withDefaultProfiles
    apply List.mem_append_left
    apply List.mem_filter.mpr
    refine ⟨by simp [DEFAULT_PROFILES_FULL], ?_⟩
    simp [hany]

/-- Witness for the C1 theorem at the empty stored profile list. -/
theorem c1_default_profiles_witness :
    (∀ d ∈ DEFAULT_PROFILES_FULL,
      ((({} : ConfigInput).profiles.getD []).filter (fun q => q.id == d.id)).length ≤ 1)
    ∧ ((validateConfigFull "/cwd" "/home/u" {}).profiles.filter
        (fun q => q.id == "heic-convert")).length = 1 :=
  ⟨by decide,
   (c1_default_profiles "/cwd" "/home/u" {} (by decide)).1
     { id := "heic-convert", name := "HEIC to JPEG", enabled := true, pattern := "*.heic",
       isRegex := false, template := "<original>", pfx := "", priority := 0,
       action := some PAction.convert } (by decide)⟩

/-! ## C6 -- concurrent target reservation -/

/-- Full characterization of one run of the reservation loop: on success the
returned candidate was neither reserved nor present on disk, it is recorded
in the returned set (on top of the unchanged previous reservations), and it
is the first free candidate in the `base, {name}_2{ext}, {name}_3{ext}, …`
progression from the starting index. -/
theorem reserveGo_spec (cwd : String) (disk : List String) (dir base name ext : String) :
    ∀ (fuel i : Nat) (inFlight : List String) (t : String) (s' : List String),
      reserveGo cwd disk dir base name ext fuel i inFlight = some (t, s') →
      s' = resolvePath cwd (pathJoin dir t) :: inFlight
      ∧ inFlight.contains (resolvePath cwd (pathJoin dir t)) = false
      ∧ disk.contains (pathJoin dir t) = false
      ∧ ∃ j, i ≤ j ∧ t = candidateAt base name ext j
        ∧ ∀ m, i ≤ m → m < j →
            inFlight.contains (resolvePath cwd (pathJoin dir (candidateAt base name ext m))) = true
            ∨ disk.contains (pathJoin dir (candidateAt base name ext m)) = true := by
  intro fuel
  induction fuel with
  | zero =>
    intro i inFlight t s' h
    exact absurd h (by simp [reserveGo])
  | succ fuel ih =>
    intro i inFlight t s' h
    simp only [reserveGo] at h
    split at h
    · -- candidate already reserved: loop on with the set unchanged
      next h1 =>
      obtain ⟨hs, hni, hnd, j, hij, ht, hmin⟩ := ih (i + 1) inFlight t s' h
      refine ⟨hs, hni, hnd, j, by omega, ht, fun m him hmj => ?_⟩
      rcases Nat.eq_or_lt_of_le him with rfl | hlt
      · exact Or.inl h1
      · exact hmin m hlt hmj
    · split at h
      · -- candidate occupied on disk: loop on with the set unchanged
        next h1 h2 =>
        obtain ⟨hs, hni, hnd, j, hij, ht, hmin⟩ := ih (i + 1) inFlight t s' h
        refine ⟨hs, hni, hnd, j, by omega, ht, fun m him hmj => ?_⟩
        rcases Nat.eq_or_lt_of_le him with rfl | hlt
        · exact Or.inr h2
        · exact hmin m hlt hmj
      · -- free: reserve and return
        next h1 h2 =>
        simp only [Option.some.injEq, Prod.mk.injEq] at h
        obtain ⟨rfl, rfl⟩ := h
        refine ⟨rfl, by simpa using h1, by simpa using h2, i, le_refl i, rfl,
          fun m him hmj => absurd (lt_of_le_of_lt him hmj) (lt_irrefl i)⟩

/-- The template-expanded base name `targetForProfile` reserves from. -/
def tfpBase (srcPath statExt : String) (birth : DateTime) (p : Profile) : String :=
  buildNameFromTemplate (if p.template = "" then DEFAULT_TEMPLATE else p.template)
    { originalPath := srcPath, birthtime := birth, ext := normalizeExtArg statExt srcPath,
      pfx := if p.pfx = "" then "File" else p.pfx, counter := none }

/-- The `j`-th candidate filename of a `targetForProfile` call. -/
def tfpCandidate (srcPath statExt : String) (birth : DateTime) (p : Profile) (j : Nat) : String :=
  candidateAt (tfpBase srcPath statExt birth p)
    (splitBase (tfpBase srcPath statExt birth p)).1
    (splitBase (tfpBase srcPath statExt birth p)).2 j

/-- Characterization of one successful `targetForProfile` call via
`reserveGo_spec`. -/
theorem targetForProfile_spec (cwd : String) (disk : List String) (srcPath statExt : String)
    (birth : DateTime) (p : Profile) (inFlight : List String) (fuel : Nat)
    (t : String) (s1 : List String) (dir' : String)
    (h : targetForProfile cwd disk srcPath statExt birth p inFlight fuel = some (t, s1, dir')) :
    dir' = jsDirname srcPath
    ∧ s1 = resolvePath cwd (pathJoin dir' t) :: inFlight
    ∧ inFlight.contains (resolvePath cwd (pathJoin dir' t)) = false
    ∧ disk.contains (pathJoin dir' t) = false
    ∧ (∃ j, t = tfpCandidate srcPath statExt birth p j
        ∧ ∀ m < j,
          inFlight.contains
              (resolvePath cwd (pathJoin dir' (tfpCandidate srcPath statExt birth p m))) = true
          ∨ disk.contains (pathJoin dir' (tfpCandidate srcPath statExt birth p m)) = true) := by
  unfold targetForProfile at h
  simp only [Option.map_eq_some'] at h
  obtain ⟨⟨t0, s0⟩, hres, heq⟩ := h
  simp only [Prod.mk.injEq] at heq
  obtain ⟨rfl, rfl, rfl⟩ := heq
  unfold reserveTarget at hres
  obtain ⟨hs, hni, hnd, j, -, ht, hmin⟩ :=
    reserveGo_spec cwd disk (jsDirname srcPath) _ _ _ fuel 0 inFlight t0 s0 hres
  exact ⟨rfl, hs, hni, hnd, j, ht, fun m hm => hmin m (Nat.zero_le m) hm⟩

/-- A set of `n` concurrent `targetForProfile` calls with identical
arguments, sequentially threaded through the reservation set (each call
inserts its key into the set synchronously before its `exists` await, so
the event-loop interleavings of the real code observe exactly these
states); all reservations are held while the calls are in flight. -/
def targetForProfileMany (cwd : String) (disk : List String) (srcPath statExt : String)
    (birth : DateTime) (p : Profile) (fuel : Nat) :
    Nat → List String → Option (List String × List String)
  | 0, inFlight => some ([], inFlight)
  | n + 1, inFlight =>
    (targetForProfile cwd disk srcPath statExt birth p inFlight fuel).bind (fun r =>
      (targetForProfileMany cwd disk srcPath statExt birth p fuel n r.2.1).map
        (fun q => (r.1 :: q.1, q.2)))

theorem targetForProfileMany_mono (cwd : String) (disk : List String) (srcPath statExt : String)
    (birth : DateTime) (p : Profile) (fuel : Nat) :
    ∀ (n : Nat) (inFlight ts s' : List String),
      targetForProfileMany cwd disk srcPath statExt birth p fuel n inFlight = some (ts, s') →
      ∀ x ∈ inFlight, x ∈ s' := by
  intro n
  induction n with
  | zero =>
    intro inFlight ts s' h x hx
    simp only [targetForProfileMany, Option.some.injEq, Prod.mk.injEq] at h
    obtain ⟨-, rfl⟩ := h
    exact hx
  | succ n ih =>
    intro inFlight ts s' h x hx
    simp only [targetForProfileMany, Option.bind_eq_some, Option.map_eq_some'] at h
    obtain ⟨⟨t, s1, dir'⟩, hcall, ⟨⟨ts0, s0⟩, hrec, heq⟩⟩ := h
    simp only [Prod.mk.injEq] at heq
    obtain ⟨-, rfl⟩ := heq
    obtain ⟨-, hs1, -, -, -⟩ :=
      targetForProfile_spec cwd disk srcPath statExt birth p inFlight fuel t s1 dir' hcall
    exact ih s1 ts0 _ hrec x (by rw [hs1]; exact List.mem_cons_of_mem _ hx)
theorem contains_eq_true_iff (l : List String) (a : String) : l.contains a = true ↔ a ∈ l :=
  List.elem_iff

/-- C6: for every set of concurrent `targetForProfile` calls on the same
service with the same directory, template and birthtime, the returned
filenames are pairwise distinct while the reservations are held; each
returned target's absolute path is newly reserved (held by no other
in-flight operation) and names no existing file on disk; and each returned
name is a member of the `base, {name}_2{ext}, {name}_3{ext}, …` progression
whose earlier candidates were all reserved or occupied on disk. -/
theorem c6_concurrent_targets (cwd : String) (disk : List String) (srcPath statExt : String)
    (birth : DateTime) (p : Profile) (fuel : Nat) :
    ∀ (n : Nat) (inFlight ts s' : List String),
      targetForProfileMany cwd disk srcPath statExt birth p fuel n inFlight = some (ts, s') →
      ts.Pairwise (fun a b => a ≠ b)
      ∧ (∀ t ∈ ts,
          resolvePath cwd (pathJoin (jsDirname srcPath) t) ∈ s'
          ∧ resolvePath cwd (pathJoin (jsDirname srcPath) t) ∉ inFlight
          ∧ disk.contains (pathJoin (jsDirname srcPath) t) = false)
      ∧ (∀ t ∈ ts, ∃ j, t = tfpCandidate srcPath statExt birth p j
          ∧ ∀ m < j,
            resolvePath cwd
                (pathJoin (jsDirname srcPath) (tfpCandidate srcPath statExt birth p m)) ∈ s'
            ∨ disk.contains
                (pathJoin (jsDirname srcPath) (tfpCandidate srcPath statExt birth p m)) = true) := by
  intro n
  induction n with
  | zero =>
    intro inFlight ts s' h
    simp only [targetForProfileMany, Option.some.injEq, Prod.mk.injEq] at h
    obtain ⟨rfl, rfl⟩ := h
    simp
  | succ n ih =>
    intro inFlight ts s' h
    simp only [targetForProfileMany, Option.bind_eq_some, Option.map_eq_some'] at h
    obtain ⟨⟨t, s1, dir'⟩, hcall, ⟨⟨ts0, s0⟩, hrec, heq⟩⟩ := h
    simp only [Prod.mk.injEq] at heq
    obtain ⟨h1, rfl⟩ := heq
    subst h1
    obtain ⟨hdir, hs1, hfresh, hdisk, hprog⟩ :=
      targetForProfile_spec cwd disk srcPath statExt birth p inFlight fuel t s1 dir' hcall
    subst hdir
    obtain ⟨ihpw, ihmem, ihprog⟩ := ih s1 ts0 _ hrec
    have hmono := targetForProfileMany_mono cwd disk srcPath statExt birth p fuel n s1 ts0 _ hrec
    have hkey_s' : resolvePath cwd (pathJoin (jsDirname srcPath) t) ∈ s0 :=
      hmono _ (by rw [hs1]; exact List.mem_cons_self _ _)
    have hfresh' : resolvePath cwd (pathJoin (jsDirname srcPath) t) ∉ inFlight := by
      intro hmem
      rw [← contains_eq_true_iff] at hmem
      rw [hfresh] at hmem
      exact Bool.false_ne_true hmem
    refine ⟨?_, ?_, ?_⟩
    · rw [List.pairwise_cons]
      refine ⟨?_, ihpw⟩
      intro b hb hbt
      subst hbt
      have hnb := (ihmem t hb).2.1
      rw [hs1] at hnb
      exact hnb (List.mem_cons_self _ _)
    · intro x hx
      rcases List.mem_cons.mp hx with rfl | hx0
      · exact ⟨hkey_s', hfresh', hdisk⟩
      · have hm := ihmem x hx0
        refine ⟨hm.1, ?_, hm.2.2⟩
        intro hmem
        exact hm.2.1 (by rw [hs1]; exact List.mem_cons_of_mem _ hmem)
    · intro x hx
      rcases List.mem_cons.mp hx with rfl | hx0
      · obtain ⟨j, hj, hmin⟩ := hprog
        refine ⟨j, hj, fun m hm => ?_⟩
        rcases hmin m hm with hres | hd
        · left
          have : resolvePath cwd
              (pathJoin (jsDirname srcPath) (tfpCandidate srcPath statExt birth p m)) ∈ inFlight :=
            (contains_eq_true_iff _ _).mp hres
          exact hmono _ (by rw [hs1]; exact List.mem_cons_of_mem _ this)
        · exact Or.inr hd
      · exact ihprog x hx0

/-- Witness for the C6 theorem: two concurrent reservations of the same
base name collide on the in-flight set and return distinct names. -/
theorem c6_concurrent_targets_witness :
    targetForProfileMany "/cwd" [] "/w/IMG.heic" ".heic" ⟨2025, 10, 30, 9, 0, 0⟩
      { id := "p", name := "P", enabled := true, pattern := "*.heic", isRegex := false,
        template := "<original>", pfx := "", priority := 0, action := none } 5 2 []
      = some (["IMG.heic", "IMG_2.heic"], ["/w/IMG_2.heic", "/w/IMG.heic"])
    ∧ (["IMG.heic", "IMG_2.heic"] : List String).Pairwise (fun a b => a ≠ b) :=
  ⟨by decide,
   (c6_concurrent_targets "/cwd" [] "/w/IMG.heic" ".heic" ⟨2025, 10, 30, 9, 0, 0⟩
      { id := "p", name := "P", enabled := true, pattern := "*.heic", isRegex := false,
        template := "<original>", pfx := "", priority := 0, action := none } 5 2 []
      ["IMG.heic", "IMG_2.heic"] ["/w/IMG_2.heic", "/w/IMG.heic"] (by decide)).1⟩

/-! ## C4 -- convert pipeline ordering and failure handling -/

/-- C4: in every execution of the convert pipeline, a `trashed` event is
emitted only after a `converted` event (the two occur in that order in the
step trace, never reordered); a conversion exception yields a
`convert-error` event and `moveToTrash` is never called; and when
`moveToTrash` fails or throws after a successful conversion, a warn toast is
emitted instead of a `trashed` event while the `converted` event and the
journal record still stand. -/
theorem c4_convert_pipeline (dryRun canConv : Bool) (basename extVal srcPath : String)
    (conv : Except String String) (trash : TrashOutcome) :
    (∀ f, Step.emitTrashed f ∈ handleConvert dryRun canConv basename extVal srcPath conv trash →
      ∃ t, List.Sublist [Step.emitConverted basename t, Step.emitTrashed f]
        (handleConvert dryRun canConv basename extVal srcPath conv trash))
    ∧ (∀ msg, canConv = true → dryRun = false → conv = Except.error msg →
        (∃ m, Step.emitConvertError basename m
            ∈ handleConvert dryRun canConv basename extVal srcPath conv trash)
        ∧ ∀ s, Step.opTrash s ∉ handleConvert dryRun canConv basename extVal srcPath conv trash)
    ∧ (∀ dest, canConv = true → dryRun = false → conv = Except.ok dest →
        trash ≠ TrashOutcome.ok →
        (∃ m, Step.emitToastWarn m
            ∈ handleConvert dryRun canConv basename extVal srcPath conv trash)
        ∧ (∀ f, Step.emitTrashed f ∉ handleConvert dryRun canConv basename extVal srcPath conv trash)
        ∧ Step.emitConverted basename (jsBasename dest)
            ∈ handleConvert dryRun canConv basename extVal srcPath conv trash
        ∧ Step.opJournalRecord srcPath dest
            ∈ handleConvert dryRun canConv basename extVal srcPath conv trash) := by
  refine ⟨?_, ?_, ?_⟩
  · intro f hf
    cases canConv with
    | false => simp [handleConvert] at hf
    | true =>
      cases dryRun with
      | true => simp [handleConvert] at hf
      | false =>
        cases conv with
        | error msg => simp [handleConvert] at hf
        | ok dest =>
          cases trash with
          | ok =>
            simp only [handleConvert, trashSteps, Bool.not_true, Bool.false_eq_true,
              if_false, if_neg, List.cons_append, List.nil_append, List.mem_cons,
              List.not_mem_nil, or_false, reduceCtorEq, false_or] at hf
            obtain rfl : f = basename := by
              simpa using hf
            refine ⟨jsBasename dest, ?_⟩
            simp only [handleConvert, trashSteps, Bool.not_true, Bool.false_eq_true,
              if_false, List.cons_append, List.nil_append]
            exact List.Sublist.cons _ (List.Sublist.cons₂ _ (List.Sublist.cons _
              (List.Sublist.cons _ (List.Sublist.cons₂ _ List.Sublist.slnil))))
          | failed err => simp [handleConvert, trashSteps] at hf
          | thrown => simp [handleConvert, trashSteps] at hf
  · intro msg hc hd hcv
    subst hc
    subst hd
    subst hcv
    refine ⟨⟨if msg = "" then "conversion failed" else msg, by simp [handleConvert]⟩, ?_⟩
    intro s
    simp [handleConvert]
  · intro dest hc hd hcv hne
    subst hc
    subst hd
    subst hcv
    cases trash with
    | ok => exact absurd rfl hne
    | failed err =>
      refine ⟨⟨"Could not trash original: " ++ err, by simp [handleConvert, trashSteps]⟩,
        fun f => by simp [handleConvert, trashSteps],
        by simp [handleConvert, trashSteps],
        by simp [handleConvert, trashSteps]⟩
    | thrown =>
      refine ⟨⟨"Could not trash original: " ++ basename, by simp [handleConvert, trashSteps]⟩,
        fun f => by simp [handleConvert, trashSteps],
        by simp [handleConvert, trashSteps],
        by simp [handleConvert, trashSteps]⟩

/-- Witness for the C4 theorem: the convert-error branch and the
trash-failure branch at concrete inputs. -/
theorem c4_convert_pipeline_witness :
    (∃ m, Step.emitConvertError "IMG.heic" m
        ∈ handleConvert false true "IMG.heic" ".heic" "/w/IMG.heic"
            (Except.error "sips failed") TrashOutcome.ok)
    ∧ (∃ m, Step.emitToastWarn m
        ∈ handleConvert false true "IMG.heic" ".heic" "/w/IMG.heic"
            (Except.ok "/w/IMG.jpeg") (TrashOutcome.failed "permission denied")) :=
  ⟨((c4_convert_pipeline false true "IMG.heic" ".heic" "/w/IMG.heic"
      (Except.error "sips failed") TrashOutcome.ok).2.1 "sips failed" rfl rfl rfl).1,
   ((c4_convert_pipeline false true "IMG.heic" ".heic" "/w/IMG.heic"
      (Except.ok "/w/IMG.jpeg") (TrashOutcome.failed "permission denied")).2.2 "/w/IMG.jpeg"
      rfl rfl rfl (by decide)).1⟩

/-! ## C5 -- dry-run performs no disk mutation -/

/-- C5 counterexample: the claim states that every dry-run pipeline emits a
preview event.  A watch event for a file whose name is already canonical is
processed with `dryRun = true` and emits `skipped{"idempotent"}`, not a
preview (no disk mutation occurs either way). -/
theorem c5_counterexample :
    handleProfileRename "/cwd" [] true true "Screenshot_2025-10-30_09-00-00.png" ".png"
      "/w/Screenshot_2025-10-30_09-00-00.png" "/w" ⟨2025, 10, 30, 9, 0, 0⟩
      { id := "screenshots", name := "Screenshots", enabled := true, pattern := "Screenshot*",
        isRegex := false, template := "<prefix>_<datetime>", pfx := "Screenshot",
        priority := 1, action := none } [] 5 (Except.ok "/w/out.jpeg") (Except.ok ())
      TrashOutcome.ok true true
    = some ([Step.emitSkipped "Screenshot_2025-10-30_09-00-00.png" "idempotent"], []) := by
  decide

/-- C5 (amended): for every watch event dispatched to a pipeline while
`dryRun = true`, no step of the pipeline trace is a disk mutation (no
rename, no conversion, no trash, no journal append — only stat/access
reads), and the single emitted event is a preview — or a skipped event when
the filename is already canonical or the format is not convertible.  Both
the profile pipelines and the legacy include/exclude pipeline are covered. -/
theorem c5_dry_run_no_mutation (cwd : String) (disk : List String) (canConv : Bool)
    (basename extVal srcPath dir cfgPfx : String) (birth : DateTime) (p : Profile)
    (inFlight : List String) (fuel : Nat) (conv : Except String String)
    (renameRes : Except String Unit) (trash : TrashOutcome)
    (srcStillExists pollRestores : Bool) :
    (∀ steps s',
      handleProfileRename cwd disk true canConv basename extVal srcPath dir birth p
          inFlight fuel conv renameRes trash srcStillExists pollRestores = some (steps, s') →
      (∀ st ∈ steps, st.isDiskMutation = false)
      ∧ ((∃ t, steps = [Step.emitPreview basename t])
          ∨ (∃ m, steps = [Step.emitSkipped basename m])))
    ∧ (∀ steps s',
      handleLegacyRename cwd disk true basename extVal srcPath cfgPfx birth inFlight fuel
          srcStillExists pollRestores renameRes = some (steps, s') →
      (∀ st ∈ steps, st.isDiskMutation = false)
      ∧ ((∃ t, steps = [Step.emitPreview basename t])
          ∨ (∃ m, steps = [Step.emitSkipped basename m]))) := by
  constructor
  · intro steps s' h
    unfold handleProfileRename at h
    cases hact : p.action.getD PAction.rename <;> rw [hact] at h
    · -- rename
      unfold handleRenameOnly at h
      by_cases hneed : needsRenameForProfile basename p
      · rw [if_neg (by simp [hneed])] at h
        rw [Option.map_eq_some'] at h
        obtain ⟨r, -, heq⟩ := h
        simp only [if_pos, if_true, Prod.mk.injEq] at heq
        obtain ⟨rfl, -⟩ := heq
        exact ⟨fun st hst => by simp at hst; subst hst; rfl,
          Or.inl ⟨r.1, rfl⟩⟩
      · rw [if_pos (by simp [hneed])] at h
        simp only [Option.some.injEq, Prod.mk.injEq] at h
        obtain ⟨rfl, -⟩ := h
        exact ⟨fun st hst => by simp at hst; subst hst; rfl,
          Or.inr ⟨"idempotent", rfl⟩⟩
    · -- convert
      simp only [Option.some.injEq, Prod.mk.injEq] at h
      obtain ⟨rfl, -⟩ := h
      cases canConv
      · exact ⟨fun st hst => by simp [handleConvert] at hst; subst hst; rfl,
          Or.inr ⟨"unsupported format", by simp [handleConvert]⟩⟩
      · exact ⟨fun st hst => by simp [handleConvert] at hst; subst hst; rfl,
          Or.inl ⟨jsBasenameSans basename extVal ++ ".jpeg", by simp [handleConvert]⟩⟩
    · -- rename+convert
      unfold handleRenameAndConvert at h
      cases canConv
      · rw [if_pos (by simp)] at h
        simp only [Option.some.injEq, Prod.mk.injEq] at h
        obtain ⟨rfl, -⟩ := h
        exact ⟨fun st hst => by simp at hst; subst hst; rfl,
          Or.inr ⟨"unsupported format", rfl⟩⟩
      · rw [if_neg (by simp), if_pos rfl] at h
        simp only [Option.some.injEq, Prod.mk.injEq] at h
        obtain ⟨rfl, -⟩ := h
        exact ⟨fun st hst => by simp at hst; subst hst; rfl,
          Or.inl ⟨jsBasenameSans basename extVal ++ ".jpeg", rfl⟩⟩
  · intro steps s' h
    unfold handleLegacyRename at h
    by_cases hneed : needsRename basename cfgPfx
    · rw [if_neg (by simp [hneed])] at h
      rw [Option.map_eq_some'] at h
      obtain ⟨r, -, heq⟩ := h
      simp only [if_pos, if_true, Prod.mk.injEq] at heq
      obtain ⟨rfl, -⟩ := heq
      exact ⟨fun st hst => by simp at hst; subst hst; rfl,
        Or.inl ⟨r.1, rfl⟩⟩
    · rw [if_pos (by simp [hneed])] at h
      simp only [Option.some.injEq, Prod.mk.injEq] at h
      obtain ⟨rfl, -⟩ := h
      exact ⟨fun st hst => by simp at hst; subst hst; rfl,
        Or.inr ⟨"idempotent", rfl⟩⟩

/-- Witness for the C5 theorem: dry-run rename and convert dispatches at
concrete inputs. -/
theorem c5_dry_run_no_mutation_witness :
    (∀ st ∈ [Step.emitPreview "IMG.heic" "IMG.jpeg"], st.isDiskMutation = false)
    ∧ ((∃ t, [Step.emitPreview "IMG.heic" "IMG.jpeg"] = [Step.emitPreview "IMG.heic" t])
        ∨ (∃ m, [Step.emitPreview "IMG.heic" "IMG.jpeg"] = [Step.emitSkipped "IMG.heic" m])) :=
  ((c5_dry_run_no_mutation "/cwd" [] true "IMG.heic" ".heic" "/w/IMG.heic" "/w" "Screenshot"
      ⟨2025, 10, 30, 9, 0, 0⟩
      { id := "heic-convert", name := "HEIC to JPEG", enabled := true, pattern := "*.heic",
        isRegex := false, template := "<original>", pfx := "", priority := 0,
        action := some PAction.convert } [] 5 (Except.ok "/w/IMG.jpeg") (Except.ok ())
      TrashOutcome.ok true true).1
    [Step.emitPreview "IMG.heic" "IMG.jpeg"] [] (by decide))

/-! ## C8 -- watchDirs validation invariant -/

/-- A string that is an absolute, normalized path: `"/"`, or a leading
slash followed by nonempty segments none of which is `.` or `..`. -/
def isCleanAbs (s : String) : Bool :=
  s == "/" ||
    (match splitSegs s.data with
     | [] :: rest => !rest.isEmpty && rest.all cleanSeg
     | _ => false)

theorem splitSegs_ne_nil (l : List Char) : splitSegs l ≠ [] := by
  cases l with
  | nil => simp [splitSegs]
  | cons c rest =>
    rw [splitSegs]
    by_cases h : c = '/'
    · simp [h]
    · simp only [h, if_neg, not_false_iff]
      cases hs : splitSegs rest <;> simp

theorem mem_splitSegs_noSlash : ∀ (l : List Char) (seg : List Char),
    seg ∈ splitSegs l → '/' ∉ seg := by
  intro l
  induction l with
  | nil =>
    intro seg hseg
    simp [splitSegs] at hseg
    subst hseg
    simp
  | cons c rest ih =>
    intro seg hseg
    rw [splitSegs] at hseg
    by_cases h : c = '/'
    · rw [if_pos h] at hseg
      rcases List.mem_cons.mp hseg with rfl | hseg'
      · simp
      · exact ih seg hseg'
    · rw [if_neg h] at hseg
      cases hs : splitSegs rest with
      | nil => exact absurd hs (splitSegs_ne_nil rest)
      | cons s ss =>
        rw [hs] at hseg
        rcases List.mem_cons.mp hseg with rfl | hseg'
        · intro hmem
          rcases List.mem_cons.mp hmem with rfl | hmem'
          · exact h rfl
          · exact ih s (hs ▸ List.mem_cons_self s ss) hmem'
        · exact ih seg (hs ▸ List.mem_cons_of_mem s hseg')

theorem splitSegs_noSlashIn : ∀ (l : List Char), '/' ∉ l → splitSegs l = [l] := by
  intro l
  induction l with
  | nil => intro _; rfl
  | cons c rest ih =>
    intro h
    rw [splitSegs]
    have hc : ¬ c = '/' := fun hc => h (hc ▸ List.mem_cons_self c rest)
    rw [if_neg hc, ih (fun hm => h (List.mem_cons_of_mem c hm))]

theorem splitSegs_append_slash : ∀ (s t : List Char), '/' ∉ s →
    splitSegs (s ++ '/' :: t) = s :: splitSegs t := by
  intro s
  induction s with
  | nil => intro t _; simp [splitSegs]
  | cons c rest ih =>
    intro t h
    have hc : ¬ c = '/' := fun hc => h (hc ▸ List.mem_cons_self c rest)
    rw [List.cons_append, splitSegs, if_neg hc,
      ih t (fun hm => h (List.mem_cons_of_mem c hm))]

theorem splitSegs_joinSegs : ∀ (st : List (List Char)), st ≠ [] →
    (∀ s ∈ st, '/' ∉ s) → splitSegs (joinSegs st) = st := by
  intro st
  induction st with
  | nil => intro h _; exact absurd rfl h
  | cons s rest ih =>
    intro _ hns
    cases rest with
    | nil =>
      show splitSegs (joinSegs [s]) = [s]
      rw [joinSegs]
      exact splitSegs_noSlashIn s (hns s (List.mem_cons_self s []))
    | cons s2 rest2 =>
      show splitSegs (s ++ '/' :: joinSegs (s2 :: rest2)) = s :: (s2 :: rest2)
      rw [splitSegs_append_slash s _ (hns s (List.mem_cons_self _ _))]
      rw [ih (by simp) (fun x hx => hns x (List.mem_cons_of_mem s hx))]

theorem mem_normStack (segs : List (List Char)) (x : List Char) (hx : x ∈ normStack segs) :
    x ∈ segs ∧ cleanSeg x = true := by
  unfold normStack at hx
  suffices h : ∀ (ss : List (List Char)) (acc : List (List Char)),
      x ∈ ss.foldl (fun st seg =>
        if seg.isEmpty || seg = ['.'] then st
        else if seg = ['.', '.'] then st.dropLast
        else st ++ [seg]) acc →
      x ∈ acc ∨ (x ∈ ss ∧ cleanSeg x = true) by
    rcases h segs [] hx with hacc | hgood
    · simp at hacc
    · exact hgood
  intro ss
  induction ss with
  | nil => intro acc h; exact Or.inl h
  | cons seg rest ih =>
    intro acc h
    rw [List.foldl_cons] at h
    by_cases h1 : seg.isEmpty || seg = ['.']
    · rw [if_pos h1] at h
      rcases ih acc h with hacc | ⟨hm, hc⟩
      · exact Or.inl hacc
      · exact Or.inr ⟨List.mem_cons_of_mem _ hm, hc⟩
    · rw [if_neg h1] at h
      by_cases h2 : seg = ['.', '.']
      · rw [if_pos h2] at h
        rcases ih acc.dropLast h with hacc | ⟨hm, hc⟩
        · exact Or.inl ((List.dropLast_sublist acc).subset hacc)
        · exact Or.inr ⟨List.mem_cons_of_mem _ hm, hc⟩
      · rw [if_neg h2] at h
        rcases ih (acc ++ [seg]) h with hacc | ⟨hm, hc⟩
        · rcases List.mem_append.mp hacc with hl | hr
          · exact Or.inl hl
          · obtain rfl : x = seg := by simpa using hr
            refine Or.inr ⟨List.mem_cons_self _ _, ?_⟩
            simp only [Bool.or_eq_true, not_or] at h1
            unfold cleanSeg
            simp only [h1.1, decide_eq_true_eq, Bool.not_false, Bool.true_and]
            simp [h1.2, h2]
        · exact Or.inr ⟨List.mem_cons_of_mem _ hm, hc⟩

theorem isCleanAbs_resolvePath (cwd s : String) : isCleanAbs (resolvePath cwd s) = true := by
  have key : ∀ full : List Char,
      isCleanAbs ⟨'/' :: joinSegs (normStack (splitSegs full))⟩ = true := by
    intro full
    have hgood : ∀ x ∈ normStack (splitSegs full), '/' ∉ x ∧ cleanSeg x = true := by
      intro x hx
      obtain ⟨hm, hc⟩ := mem_normStack _ x hx
      exact ⟨mem_splitSegs_noSlash full x hm, hc⟩
    cases hst : normStack (splitSegs full) with
    | nil => decide
    | cons seg rest =>
      unfold isCleanAbs
      apply Bool.or_eq_true_iff.mpr
      right
      have hns : ∀ x ∈ seg :: rest, '/' ∉ x := fun x hx => (hgood x (hst ▸ hx)).1
      have hsplit : splitSegs ('/' :: joinSegs (seg :: rest)) = [] :: (seg :: rest) := by
        rw [splitSegs, if_pos rfl, splitSegs_joinSegs _ (by simp) hns]
      show (match splitSegs ('/' :: joinSegs (seg :: rest)) with
        | [] :: rest => !rest.isEmpty && rest.all cleanSeg
        | _ => false) = true
      rw [hsplit]
      simp only [List.isEmpty_cons, Bool.not_false, Bool.true_and]
      rw [List.all_eq_true]
      intro x hx
      exact (hgood x (hst ▸ hx)).2
  exact key _
theorem dedup_fold_mono : ∀ (l acc : List String) (x : String), x ∈ acc →
    x ∈ l.foldl (fun acc d => if acc.contains d then acc else acc ++ [d]) acc := by
  intro l
  induction l with
  | nil => intro acc x hx; exact hx
  | cons d rest ih =>
    intro acc x hx
    rw [List.foldl_cons]
    by_cases h : acc.contains d
    · rw [if_pos h]
      exact ih acc x hx
    · rw [if_neg h]
      exact ih _ x (List.mem_append_left _ hx)

theorem dedup_fold_mem : ∀ (l acc : List String) (x : String),
    x ∈ l.foldl (fun acc d => if acc.contains d then acc else acc ++ [d]) acc →
    x ∈ acc ∨ x ∈ l := by
  intro l
  induction l with
  | nil => intro acc x hx; exact Or.inl hx
  | cons d rest ih =>
    intro acc x hx
    rw [List.foldl_cons] at hx
    by_cases h : acc.contains d
    · rw [if_pos h] at hx
      rcases ih acc x hx with hl | hr
      · exact Or.inl hl
      · exact Or.inr (List.mem_cons_of_mem _ hr)
    · rw [if_neg h] at hx
      rcases ih _ x hx with hl | hr
      · rcases List.mem_append.mp hl with hll | hlr
        · exact Or.inl hll
        · obtain rfl : x = d := by simpa using hlr
          exact Or.inr (List.mem_cons_self _ _)
      · exact Or.inr (List.mem_cons_of_mem _ hr)

theorem dedup_fold_nodup : ∀ (l acc : List String), acc.Nodup →
    (l.foldl (fun acc d => if acc.contains d then acc else acc ++ [d]) acc).Nodup := by
  intro l
  induction l with
  | nil => intro acc h; exact h
  | cons d rest ih =>
    intro acc h
    rw [List.foldl_cons]
    by_cases hc : acc.contains d
    · rw [if_pos hc]
      exact ih acc h
    · rw [if_neg hc]
      refine ih _ ?_
      rw [← List.concat_eq_append]
      exact List.Nodup.concat (fun hm => hc ((contains_eq_true_iff acc d).mpr hm)) h

theorem dedup_nodup (l : List String) : (dedup l).Nodup :=
  dedup_fold_nodup l [] List.nodup_nil

theorem mem_dedup (l : List String) (x : String) (hx : x ∈ dedup l) : x ∈ l := by
  rcases dedup_fold_mem l [] x hx with h | h
  · simp at h
  · exact h

theorem dedup_ne_nil (l : List String) (h : l ≠ []) : dedup l ≠ [] := by
  cases l with
  | nil => exact absurd rfl h
  | cons d rest =>
    intro hnil
    have hd : d ∈ dedup (d :: rest) := by
      unfold dedup
      rw [List.foldl_cons, if_neg (by simp)]
      exact dedup_fold_mono rest [d] d (by simp)
    rw [hnil] at hd
    simp at hd

theorem mem_sanitizeDirs_clean (cwd home : String) (raw : List String) (x : String)
    (hx : x ∈ sanitizeDirs cwd home raw) : isCleanAbs x = true := by
  unfold sanitizeDirs at hx
  have hx2 := mem_dedup _ x hx
  by_cases hempty : (raw.filterMap
      (fun e => if jsTrim e ≠ "" then some (resolvePath cwd (jsTrim e)) else none)).isEmpty
      && !(defaultWatchDir home == "")
  · rw [if_pos (by simpa using hempty)] at hx2
    obtain rfl : x = resolvePath cwd (defaultWatchDir home) := by simpa using hx2
    exact isCleanAbs_resolvePath cwd _
  · rw [if_neg (by simpa using hempty)] at hx2
    obtain ⟨e, -, he⟩ := List.mem_filterMap.mp hx2
    by_cases ht : jsTrim e ≠ ""
    · rw [if_pos ht] at he
      obtain rfl : resolvePath cwd (jsTrim e) = x := by simpa using he
      exact isCleanAbs_resolvePath cwd _
    · rw [if_neg ht] at he
      exact absurd he (by simp)

theorem isCleanAbs_ne_empty (x : String) (h : isCleanAbs x = true) : x ≠ "" := by
  intro hx
  subst hx
  exact absurd h (by decide)

theorem sanitizeDirs_eq_nil (cwd home : String) (raw : List String)
    (h : sanitizeDirs cwd home raw = []) : defaultWatchDir home = "" := by
  by_contra hne
  simp only [sanitizeDirs] at h
  set fm := List.filterMap
    (fun e => if jsTrim e ≠ "" then some (resolvePath cwd (jsTrim e)) else none) raw with hfm
  by_cases hempty : fm.isEmpty
  · rw [if_pos (by rw [hempty]; simpa using hne)] at h
    exact dedup_ne_nil _ (by simp) h
  · have hfalse : fm.isEmpty = false := by simpa using hempty
    rw [if_neg (by rw [hfalse]; simp)] at h
    exact dedup_ne_nil _ (fun hnil => by simp [hnil] at hfalse) h
/-- The watchDir fallback of validateConfig:
`cfg.watchDir = cfg.watchDirs[0] ?? DEFAULT_CONFIG.watchDir` when unset. -/
def wd1 (W dflt : String) (sd : List String) : String :=
  if W = "" then sd.head?.getD dflt else W

/-- The primary-directory promotion of validateConfig. -/
def wd2 (W dflt : String) (sd : List String) : List String :=
  if wd1 W dflt sd ≠ "" then wd1 W dflt sd :: sd.filter (· ≠ wd1 W dflt sd) else sd

/-- The final watchDirs fallback of validateConfig. -/
def wd3 (W dflt : String) (sd : List String) : List String :=
  if (wd2 W dflt sd).isEmpty && wd1 W dflt sd ≠ "" then [wd1 W dflt sd] else wd2 W dflt sd

theorem cons_filter_good (x : String) (sd : List String) (hxne : x ≠ "")
    (hclean : ∀ y ∈ sd, isCleanAbs y = true) (hnodup : sd.Nodup) :
    (x :: sd.filter (· ≠ x)).Nodup ∧ "" ∉ (x :: sd.filter (· ≠ x))
    ∧ (isCleanAbs x = true → ∀ y ∈ x :: sd.filter (· ≠ x), isCleanAbs y = true) := by
  refine ⟨List.nodup_cons.mpr ⟨?_, hnodup.filter _⟩, ?_, ?_⟩
  · intro hmem
    have := (List.mem_filter.mp hmem).2
    simp at this
  · intro hmem
    rcases List.mem_cons.mp hmem with heq | hmem'
    · exact hxne heq.symm
    · exact isCleanAbs_ne_empty _ (hclean _ (List.mem_filter.mp hmem').1) rfl
  · intro hx y hy
    rcases List.mem_cons.mp hy with rfl | hy'
    · exact hx
    · exact hclean y (List.mem_filter.mp hy').1

theorem watch_post (W dflt : String) (sd : List String)
    (hclean : ∀ x ∈ sd, isCleanAbs x = true)
    (hnodup : sd.Nodup)
    (hnil : sd = [] → dflt = "") :
    (wd3 W dflt sd).Nodup ∧ "" ∉ wd3 W dflt sd
    ∧ (wd3 W dflt sd = [] ∧ wd1 W dflt sd = ""
        ∨ (wd3 W dflt sd).head? = some (wd1 W dflt sd))
    ∧ ((W = "" ∨ isCleanAbs W = true)
        → ∀ x ∈ wd3 W dflt sd, isCleanAbs x = true) := by
  by_cases hWe : W = ""
  · subst hWe
    cases hsd : sd with
    | nil =>
      have hdflt : dflt = "" := hnil hsd
      subst hdflt
      simp [wd3, wd2, wd1]
    | cons d ds =>
      have hd : isCleanAbs d = true := hclean d (hsd ▸ List.mem_cons_self d ds)
      have hdne : d ≠ "" := isCleanAbs_ne_empty d hd
      have hw1 : wd1 "" dflt (d :: ds) = d := by simp [wd1]
      have hw2 : wd2 "" dflt (d :: ds) = d :: (d :: ds).filter (· ≠ d) := by
        rw [wd2, hw1, if_pos hdne]
      have hw3 : wd3 "" dflt (d :: ds) = d :: (d :: ds).filter (· ≠ d) := by
        rw [wd3, hw2, hw1]
        simp
      rw [hsd] at hclean hnodup
      rw [hw3, hw1]
      obtain ⟨g1, g2, g3⟩ := cons_filter_good d (d :: ds) hdne hclean hnodup
      exact ⟨g1, g2, Or.inr rfl, fun _ => g3 hd⟩
  · have hw1 : wd1 W dflt sd = W := by rw [wd1, if_neg hWe]
    have hw2 : wd2 W dflt sd = W :: sd.filter (· ≠ W) := by
      rw [wd2, hw1, if_pos hWe]
    have hw3 : wd3 W dflt sd = W :: sd.filter (· ≠ W) := by
      rw [wd3, hw2, hw1]
      simp
    rw [hw3, hw1]
    obtain ⟨g1, g2, g3⟩ := cons_filter_good W sd hWe hclean hnodup
    refine ⟨g1, g2, Or.inr rfl, ?_⟩
    intro hw
    rcases hw with h | h
    · exact absurd h hWe
    · exact g3 h

/-- The candidate directory list validateConfig sanitizes. -/
def candidateDirsOf (home : String) (input : ConfigInput) : List String :=
  match input.watchDirs with
  | some ds => ds
  | none =>
    match input.watchDir with
    | some w => if w ≠ "" then [w] else input.watchDirs.getD (DEFAULT_CONFIG home).watchDirs
    | none => input.watchDirs.getD (DEFAULT_CONFIG home).watchDirs

theorem validateConfig_watchDirs_eq (cwd home : String) (input : ConfigInput) :
    (validateConfig cwd home input).watchDirs
      = wd3 (input.watchDir.getD (defaultWatchDir home)) (defaultWatchDir home)
          (sanitizeDirs cwd home (candidateDirsOf home input)) := rfl

theorem validateConfig_watchDir_eq (cwd home : String) (input : ConfigInput) :
    (validateConfig cwd home input).watchDir
      = wd1 (input.watchDir.getD (defaultWatchDir home)) (defaultWatchDir home)
          (sanitizeDirs cwd home (candidateDirsOf home input)) := rfl
/-- C8 counterexample: the claim states every persisted watchDirs entry is
an absolute resolved path.  `set({watchDir: "relative"})` stores the raw
string as the primary entry: `validateConfig` resolves the candidate list
but prepends the un-resolved `cfg.watchDir` as `watchDirs[0]`. -/
theorem c8_relative_watchdir :
    ((setConfig "/cwd" "/home/u" (validateConfig "/cwd" "/home/u" {})
        { watchDir := some "relative" }).watchDirs.head? = some "relative")
    ∧ isAbsPath "relative" = false := by
  decide

/-- C8 (amended): for every `set(Partial<Config>)` call, the validated and
persisted config has watchDirs with no empty and no duplicate entries and
`watchDir == watchDirs[0]` (or both empty), unconditionally; and every
entry is an absolute normalized path provided the effective watchDir value
(the update's, or the current config's when absent) is empty or itself an
absolute normalized path — entries coming from `watchDirs` arrays are
always resolved, only the raw `watchDir` string is prepended unresolved. -/
theorem c8_watchdirs_invariant (cwd home : String) (cur : Config) (next : ConfigInput) :
    (setConfig cwd home cur next).watchDirs.Nodup
    ∧ "" ∉ (setConfig cwd home cur next).watchDirs
    ∧ ((setConfig cwd home cur next).watchDirs = []
         ∧ (setConfig cwd home cur next).watchDir = ""
       ∨ (setConfig cwd home cur next).watchDirs.head?
         = some (setConfig cwd home cur next).watchDir)
    ∧ ((next.watchDir.getD cur.watchDir = ""
          ∨ isCleanAbs (next.watchDir.getD cur.watchDir) = true)
        → ∀ x ∈ (setConfig cwd home cur next).watchDirs, isCleanAbs x = true) := by
  have hmerge : (mergeInput cur next).watchDir.getD (defaultWatchDir home)
      = next.watchDir.getD cur.watchDir := rfl
  unfold setConfig
  rw [validateConfig_watchDirs_eq, validateConfig_watchDir_eq, hmerge]
  refine watch_post _ _ _ ?_ ?_ ?_
  · exact fun x hx => mem_sanitizeDirs_clean _ _ _ x hx
  · exact dedup_nodup _
  · exact sanitizeDirs_eq_nil cwd home _

/-- Witness for the C8 theorem: the structural conjuncts at the relative
update (where the absoluteness proviso fails) and the absoluteness conjunct
at a concrete absolute update. -/
theorem c8_watchdirs_invariant_witness :
    (setConfig "/cwd" "/home/u" (validateConfig "/cwd" "/home/u" {})
        { watchDir := some "relative" }).watchDirs.Nodup
    ∧ "" ∉ (setConfig "/cwd" "/home/u" (validateConfig "/cwd" "/home/u" {})
        { watchDir := some "relative" }).watchDirs
    ∧ (∀ x ∈ (setConfig "/cwd" "/home/u" (validateConfig "/cwd" "/home/u" {})
        { watchDir := some "/data" }).watchDirs, isCleanAbs x = true) :=
  ⟨(c8_watchdirs_invariant "/cwd" "/home/u" (validateConfig "/cwd" "/home/u" {})
      { watchDir := some "relative" }).1,
   (c8_watchdirs_invariant "/cwd" "/home/u" (validateConfig "/cwd" "/home/u" {})
      { watchDir := some "relative" }).2.1,
   (c8_watchdirs_invariant "/cwd" "/home/u" (validateConfig "/cwd" "/home/u" {})
      { watchDir := some "/data" }).2.2.2 (Or.inr (by decide))⟩

/-! ## C7: idempotence of the default-template rename -/

theorem replaceVarsFuel_eq (vars : List (String × String)) :
    ∀ (f1 : Nat) (l : List Char) (f2 : Nat), l.length ≤ f1 → l.length ≤ f2 →
      replaceVarsFuel vars f1 l = replaceVarsFuel vars f2 l := by
  intro f1
  induction f1 with
  | zero =>
    intro l f2 h1 _
    have hl : l = [] := List.eq_nil_of_length_eq_zero (Nat.le_zero.mp h1)
    subst hl
    cases f2 <;> rfl
  | succ f1 ih =>
    intro l f2 h1 h2
    cases l with
    | nil => cases f2 <;> rfl
    | cons c rest =>
      cases f2 with
      | zero => simp at h2
      | succ f2 =>
        rw [replaceVarsFuel, replaceVarsFuel]
        simp only [List.length_cons, Nat.succ_le_succ_iff] at h1 h2
        by_cases hc : c = '<'
        · rw [if_pos hc, if_pos hc]
          cases hm : matchSimpleVar rest with
          | none => rw [ih rest f2 h1 h2]
          | some r =>
            obtain ⟨w, tail⟩ := r
            have htl := matchSimpleVar_len hm
            have e1 := ih tail f2 (by omega) (by omega)
            simp [e1]
        · rw [if_neg hc, if_neg hc, ih rest f2 h1 h2]

theorem replaceVarsGo_nil (vars : List (String × String)) : replaceVarsGo vars [] = [] := rfl

theorem replaceVarsGo_cons_ne (vars : List (String × String)) (c : Char) (rest : List Char)
    (hc : ¬ c = '<') :
    replaceVarsGo vars (c :: rest) = c :: replaceVarsGo vars rest := by
  show replaceVarsFuel vars (rest.length + 1) (c :: rest) = _
  rw [replaceVarsFuel, if_neg hc]
  rfl

theorem readWord_wordPfx : ∀ (w : List Char), w.all isWordChar = true →
    ∀ (c : Char) (t : List Char), isWordChar c = false →
      readWord (w ++ c :: t) = (w, c :: t) := by
  intro w
  induction w with
  | nil =>
    intro _ c t hc
    rw [List.nil_append, readWord, hc]
    simp
  | cons x rest ih =>
    intro hall c t hc
    simp only [List.all_cons, Bool.and_eq_true] at hall
    rw [List.cons_append, readWord, hall.1]
    simp only [if_true]
    rw [ih hall.2 c t hc]

theorem matchSimpleVar_token (w tail : List Char) (hw : w ≠ [])
    (hall : w.all isWordChar = true) :
    matchSimpleVar (w ++ '>' :: tail) = some (w, tail) := by
  unfold matchSimpleVar
  rw [readWord_wordPfx w hall '>' tail (by decide)]
  simp [hw]

theorem replaceVarsGo_token (vars : List (String × String)) (w tail : List Char)
    (hw : w ≠ []) (hall : w.all isWordChar = true) :
    replaceVarsGo vars ('<' :: (w ++ '>' :: tail))
      = ((lookupVar vars ⟨w⟩).getD ⟨'<' :: (w ++ ['>'])⟩).data ++ replaceVarsGo vars tail := by
  show replaceVarsFuel vars ((w ++ '>' :: tail).length + 1) ('<' :: (w ++ '>' :: tail)) = _
  rw [replaceVarsFuel, if_pos rfl, matchSimpleVar_token w tail hw hall]
  have hlen : tail.length ≤ (w ++ '>' :: tail).length := by
    rw [List.length_append, List.length_cons]
    omega
  have e1 := replaceVarsFuel_eq vars ((w ++ '>' :: tail).length) tail tail.length hlen (le_refl _)
  simp only [e1]
  rfl
theorem string_data_append (a b : String) : (a ++ b).data = a.data ++ b.data := rfl

/-- The character content of `<date>_<time>` as `applyTemplate` renders the
default template's `<datetime>` variable. -/
def dtData (d : DateTime) : List Char :=
  decDigits d.year ++ '-' :: (pad2 d.month ++ '-' :: (pad2 d.day ++ '_' ::
    (pad2 d.hour ++ '-' :: (pad2 d.minute ++ '-' :: pad2 d.second))))

theorem pass12_default (vars : List (String × String)) (counter : Nat) :
    replaceTransformsGo vars (replaceCounterGo counter ("<prefix>_<datetime>".data))
      = "<prefix>_<datetime>".data := rfl

theorem replaceVars_default (vars : List (String × String)) (P D : String)
    (hp : lookupVar vars "prefix" = some P) (hd : lookupVar vars "datetime" = some D) :
    replaceVarsGo vars ("<prefix>_<datetime>".data) = P.data ++ '_' :: D.data := by
  have hsplit : "<prefix>_<datetime>".data
      = '<' :: ("prefix".data ++ '>' :: ('_' :: ('<' :: ("datetime".data ++ '>' :: [])))) := rfl
  rw [hsplit]
  rw [replaceVarsGo_token vars ("prefix".data) _ (by decide) (by decide)]
  have hp' : lookupVar vars ⟨"prefix".data⟩ = some P := hp
  rw [hp']
  rw [replaceVarsGo_cons_ne vars '_' _ (by decide)]
  rw [replaceVarsGo_token vars ("datetime".data) [] (by decide) (by decide)]
  have hd' : lookupVar vars ⟨"datetime".data⟩ = some D := hd
  rw [hd']
  simp [replaceVarsGo_nil]

/-- The variable table `applyTemplate` builds (spelled out for reuse in the
characterization of the default template). -/
def defaultVars (ctx : TemplateContext) : List (String × String) :=
  let d := ctx.birthtime
  let year : String := ⟨decDigits d.year⟩
  let month : String := ⟨pad2 d.month⟩
  let day : String := ⟨pad2 d.day⟩
  let hour : String := ⟨pad2 d.hour⟩
  let minute : String := ⟨pad2 d.minute⟩
  let second : String := ⟨pad2 d.second⟩
  let date := year ++ "-" ++ month ++ "-" ++ day
  let time := hour ++ "-" ++ minute ++ "-" ++ second
  let datetime := date ++ "_" ++ time
  let original := getBasenameNT ctx.originalPath
  let ext := jsToLower (if startsWithDot ctx.ext then ctx.ext else "." ++ ctx.ext)
  let pfx := sanitizePfx (if ctx.pfx = "" then "File" else ctx.pfx)
  let counter := ctx.counter.getD 1
  [("date", date), ("time", time), ("datetime", datetime), ("original", original),
   ("ext", ext), ("prefix", pfx), ("year", year), ("month", month), ("day", day),
   ("hour", hour), ("minute", minute), ("second", second), ("counter", ⟨padN counter 3⟩)]

theorem applyTemplate_default (ctx : TemplateContext) :
    (applyTemplate DEFAULT_TEMPLATE ctx).data
      = (sanitizePfx (if ctx.pfx = "" then "File" else ctx.pfx)).data
        ++ '_' :: dtData ctx.birthtime := by
  show (replaceVarsGo (defaultVars ctx)
    (replaceTransformsGo (defaultVars ctx)
      (replaceCounterGo (ctx.counter.getD 1) ("<prefix>_<datetime>".data)))) = _
  rw [pass12_default]
  have hp : lookupVar (defaultVars ctx) "prefix"
      = some (sanitizePfx (if ctx.pfx = "" then "File" else ctx.pfx)) := rfl
  have hd : lookupVar (defaultVars ctx) "datetime"
      = some ((⟨decDigits ctx.birthtime.year⟩ ++ "-" ++ ⟨pad2 ctx.birthtime.month⟩ ++ "-"
        ++ ⟨pad2 ctx.birthtime.day⟩) ++ "_" ++ (⟨pad2 ctx.birthtime.hour⟩ ++ "-"
        ++ ⟨pad2 ctx.birthtime.minute⟩ ++ "-" ++ ⟨pad2 ctx.birthtime.second⟩)) := rfl
  rw [replaceVars_default _ _ _ hp hd]
  simp only [string_data_append, List.append_assoc]
  rfl
theorem takeDigits_exact : ∀ (ds r : List Char), ds.all Char.isDigit = true →
    takeDigits ds.length (ds ++ r) = some r := by
  intro ds
  induction ds with
  | nil => intro r _; rfl
  | cons c rest ih =>
    intro r hall
    simp only [List.all_cons, Bool.and_eq_true] at hall
    show takeDigits (rest.length + 1) (c :: (rest ++ r)) = some r
    rw [takeDigits, if_pos hall.1]
    exact ih r hall.2

theorem stripCI_self : ∀ (p rest : List Char), stripCI p (p ++ rest) = some rest := by
  intro p
  induction p with
  | nil => intro rest; rfl
  | cons c cs ih =>
    intro rest
    rw [List.cons_append]
    show (if c.toLower == c.toLower then stripCI cs (cs ++ rest) else none) = some rest
    simp only [beq_self_eq_true, if_true]
    exact ih rest

theorem afterLastSlash_noSlash (l : List Char) (h : '/' ∉ l) : afterLastSlash l = l := by
  unfold afterLastSlash
  suffices haux : ∀ (m : List Char) (acc : List Char), '/' ∉ m →
      m.foldl (fun acc c => if c = '/' then [] else acc ++ [c]) acc = acc ++ m by
    simpa using haux l [] h
  intro m
  induction m with
  | nil => intro acc _; simp
  | cons c rest ih =>
    intro acc hm
    rw [List.foldl_cons, if_neg (fun hc => hm (List.mem_cons.mpr (Or.inl hc.symm)))]
    rw [ih _ (fun hmem => hm (List.mem_cons_of_mem c hmem))]
    simp

theorem digits_noSlash (l : List Char) (h : l.all Char.isDigit = true) : '/' ∉ l := by
  intro hmem
  have := List.all_eq_true.mp h '/' hmem
  exact absurd this (by decide)

theorem dtData_noSlash (d : DateTime) : '/' ∉ dtData d := by
  unfold dtData
  intro hmem
  simp only [List.mem_append, List.mem_cons] at hmem
  rcases hmem with h | h
  · exact digits_noSlash _ (decDigits_digits d.year) h
  rcases h with h | h
  · exact absurd h (by decide)
  rcases h with h | h
  · exact digits_noSlash _ (pad2_digits d.month) h
  rcases h with h | h
  · exact absurd h (by decide)
  rcases h with h | h
  · exact digits_noSlash _ (pad2_digits d.day) h
  rcases h with h | h
  · exact absurd h (by decide)
  rcases h with h | h
  · exact digits_noSlash _ (pad2_digits d.hour) h
  rcases h with h | h
  · exact absurd h (by decide)
  rcases h with h | h
  · exact digits_noSlash _ (pad2_digits d.minute) h
  rcases h with h | h
  · exact absurd h (by decide)
  · exact digits_noSlash _ (pad2_digits d.second) h
theorem takeDigits_decDigits4 (n : Nat) (h1 : 1000 ≤ n) (h2 : n < 10000) (r : List Char) :
    takeDigits 4 (decDigits n ++ r) = some r := by
  have e3 : (10 : Nat) ^ 3 = 1000 := by norm_num
  have e4 : (10 : Nat) ^ 4 = 10000 := by norm_num
  have hlen : (decDigits n).length = 4 :=
    decDigits_len (k := 3) (e3 ▸ h1) (by rw [e4]; exact h2)
  rw [← hlen]
  exact takeDigits_exact _ _ (decDigits_digits n)

theorem takeDigits_pad2 (n : Nat) (h : n < 100) (r : List Char) :
    takeDigits 2 (pad2 n ++ r) = some r := by
  rw [← pad2_len h]
  exact takeDigits_exact _ _ (pad2_digits n)

theorem expectChar_cons (c : Char) (r : List Char) : expectChar c (c :: r) = some r := by
  simp [expectChar]

theorem buildName_default_data (ctx : TemplateContext) :
    (buildNameFromTemplate DEFAULT_TEMPLATE ctx).data
      = (sanitizePfx (if ctx.pfx = "" then "File" else ctx.pfx)).data
        ++ '_' :: (dtData ctx.birthtime
            ++ (jsToLower (if startsWithDot ctx.ext then ctx.ext else "." ++ ctx.ext)).data) := by
  have hc : containsSub ("<ext>".data) DEFAULT_TEMPLATE.data = false := by decide
  simp only [buildNameFromTemplate, hc, Bool.false_eq_true, if_false]
  rw [string_data_append, applyTemplate_default]
  rw [List.append_assoc, List.cons_append]

theorem matchesCanonical_generated (pfx : String) (d : DateTime) (t : List Char)
    (hy1 : 1000 ≤ d.year) (hy2 : d.year < 10000)
    (hmo : d.month < 100) (hda : d.day < 100) (hho : d.hour < 100)
    (hmi : d.minute < 100) (hse : d.second < 100)
    (ht : t ≠ []) (hta : t.all isExtAlnum = true) :
    matchesCanonicalWith matchExtEnd pfx (pfx.data ++ '_' :: (dtData d ++ '.' :: t)) = true := by
  unfold matchesCanonicalWith
  rw [stripCI_self]
  show parseCanonTailWith matchExtEnd (dtData d ++ '.' :: t) = true
  have hsplit : dtData d ++ '.' :: t
      = decDigits d.year ++ '-' :: (pad2 d.month ++ '-' :: (pad2 d.day ++ '_' ::
          (pad2 d.hour ++ '-' :: (pad2 d.minute ++ '-' :: (pad2 d.second ++ '.' :: t))))) := by
    simp [dtData, List.append_assoc]
  rw [hsplit]
  unfold parseCanonTailWith
  rw [takeDigits_decDigits4 d.year hy1 hy2]
  simp only [Option.some_bind]
  rw [expectChar_cons, Option.some_bind, takeDigits_pad2 d.month hmo, Option.some_bind,
    expectChar_cons, Option.some_bind, takeDigits_pad2 d.day hda, Option.some_bind,
    expectChar_cons, Option.some_bind, takeDigits_pad2 d.hour hho, Option.some_bind,
    expectChar_cons, Option.some_bind, takeDigits_pad2 d.minute hmi, Option.some_bind,
    expectChar_cons, Option.some_bind, takeDigits_pad2 d.second hse]
  show matchOptCounterWith matchExtEnd ('.' :: t) = true
  show matchExtEnd ('.' :: t) = true
  show (!t.isEmpty && t.all isExtAlnum) = true
  cases t with
  | nil => exact absurd rfl ht
  | cons a s => simp only [List.isEmpty_cons, Bool.not_false, Bool.true_and]; exact hta
/-- C7 (corrected): renaming is idempotent on the default template for every
prefix whose sanitized form contains no slash, every birthtime with a
four-digit year and sub-hundred components, and every extension whose
dot-normalized lowercase form is a dot followed by a nonempty alphanumeric
run: the generated `buildNameFromTemplate` output needs no rename for the
same profile, and re-processing it through the rename-only pipeline emits a
single `skipped "idempotent"` event and mutates nothing. -/
theorem c7_rename_idempotent (p : Profile) (origPath ext : String) (birth : DateTime)
    (cnt : Option Nat)
    (hy1 : 1000 ≤ birth.year) (hy2 : birth.year < 10000)
    (hmo : birth.month < 100) (hda : birth.day < 100) (hho : birth.hour < 100)
    (hmi : birth.minute < 100) (hse : birth.second < 100)
    (hpfx : '/' ∉ (sanitizePfx (if p.pfx = "" then "File" else p.pfx)).data)
    (t : List Char)
    (hext : (jsToLower (if startsWithDot ext then ext else "." ++ ext)).data = '.' :: t)
    (ht : t ≠ []) (hta : t.all isExtAlnum = true) :
    needsRenameForProfile
        (buildNameFromTemplate DEFAULT_TEMPLATE
          { originalPath := origPath, birthtime := birth, ext := ext,
            pfx := p.pfx, counter := cnt }) p = false
    ∧ ∀ (cwd : String) (disk : List String) (dryRun : Bool) (extV srcP : String)
        (birth2 : DateTime) (inFlight : List String) (fuel : Nat)
        (sse pr : Bool) (rr : Except String Unit),
        handleRenameOnly cwd disk dryRun
            (buildNameFromTemplate DEFAULT_TEMPLATE
              { originalPath := origPath, birthtime := birth, ext := ext,
                pfx := p.pfx, counter := cnt })
            extV srcP birth2 p inFlight fuel sse pr rr
          = some ([Step.emitSkipped
              (buildNameFromTemplate DEFAULT_TEMPLATE
                { originalPath := origPath, birthtime := birth, ext := ext,
                  pfx := p.pfx, counter := cnt }) "idempotent"], inFlight) := by
  set ctx : TemplateContext :=
    { originalPath := origPath, birthtime := birth, ext := ext,
      pfx := p.pfx, counter := cnt } with hctx
  have hb : (buildNameFromTemplate DEFAULT_TEMPLATE ctx).data
      = (sanitizePfx (if p.pfx = "" then "File" else p.pfx)).data
        ++ '_' :: (dtData birth ++ '.' :: t) := by
    rw [buildName_default_data ctx]
    rw [hctx]
    rw [hext]
  have hns : '/' ∉ (buildNameFromTemplate DEFAULT_TEMPLATE ctx).data := by
    rw [hb]
    intro hmem
    simp only [List.mem_append, List.mem_cons] at hmem
    rcases hmem with h | h | h | h
    · exact hpfx h
    · exact absurd h (by decide)
    · exact dtData_noSlash birth h
    rcases h with h | h
    · exact absurd h (by decide)
    · have := List.all_eq_true.mp hta '/' h
      exact absurd this (by decide)
  have hneeds : needsRenameForProfile (buildNameFromTemplate DEFAULT_TEMPLATE ctx) p = false := by
    unfold needsRenameForProfile jsBasename
    rw [afterLastSlash_noSlash _ hns, hb]
    show (!matchesCanonicalWith matchExtEnd (sanitizePfx (if p.pfx = "" then "File" else p.pfx))
        ((sanitizePfx (if p.pfx = "" then "File" else p.pfx)).data
          ++ '_' :: (dtData birth ++ '.' :: t))) = false
    rw [matchesCanonical_generated _ birth t hy1 hy2 hmo hda hho hmi hse ht hta]
    rfl
  refine ⟨hneeds, ?_⟩
  intro cwd disk dryRun extV srcP birth2 inFlight fuel sse pr rr
  unfold handleRenameOnly
  rw [hneeds]
  rfl

theorem c7_rename_idempotent_witness :
    needsRenameForProfile
        (buildNameFromTemplate DEFAULT_TEMPLATE
          { originalPath := "/w/Screenshot 2024-01-02 at 3.04.05 PM.png",
            birthtime := ⟨2024, 1, 2, 15, 4, 5⟩, ext := ".png",
            pfx := "Screenshot", counter := none })
        { id := "screenshots", name := "Screenshots", enabled := true,
          pattern := "Screenshot*", isRegex := false, template := "<prefix>_<datetime>",
          pfx := "Screenshot", priority := 1, action := none } = false :=
  (c7_rename_idempotent
    { id := "screenshots", name := "Screenshots", enabled := true,
      pattern := "Screenshot*", isRegex := false, template := "<prefix>_<datetime>",
      pfx := "Screenshot", priority := 1, action := none }
    "/w/Screenshot 2024-01-02 at 3.04.05 PM.png" ".png" ⟨2024, 1, 2, 15, 4, 5⟩ none
    (by decide) (by decide) (by decide) (by decide) (by decide) (by decide) (by decide)
    (by decide) ['p', 'n', 'g'] (by decide) (by decide) (by decide)).1

/-- C7 counterexample: the claim as stated quantifies over every extension,
but `path.extname` can return suffixes such as `.b-c` whose characters are
not alphanumeric; the canonical-name regex tail `\.[a-z0-9]+$` rejects them,
so the freshly generated name is immediately renamed again. -/
theorem c7_counterexample :
    needsRenameForProfile
        (buildNameFromTemplate DEFAULT_TEMPLATE
          { originalPath := "/w/x.b-c", birthtime := ⟨2024, 1, 2, 15, 4, 5⟩,
            ext := ".b-c", pfx := "Screenshot", counter := none })
        { id := "screenshots", name := "Screenshots", enabled := true,
          pattern := "Screenshot*", isRegex := false, template := "<prefix>_<datetime>",
          pfx := "Screenshot", priority := 1, action := none } = true := by
  decide

end Namefix
